import Mathlib

/-!
# tfautomv: the command-line driver `run` (main.go)

`run` is glue code: it reads the flags, calls collaborators (terraform-exec,
go-version, the `ignore`, `tfautomv`, `terraform` and `format` packages, the
file system) and decides, from their answers, what to call next and what to
return.  The embedding keeps exactly that:

* the collaborators are the fields of an environment `Env`; calls that touch
  the outside world take and return a `World`, pure calls do not;
* every call `run` makes is recorded, in program order, as an `Event`, with its
  arguments and (for calls on the world) its result;
* `run` returns an `Outcome`: the error it returns (`none` for `nil`), the
  events, and the final world;
* what is printed is recorded as the call that renders it (`format.Info`,
  `format.Analysis`, `format.Done`, `format.Moves`) with its destination
  stream; `terraform.WriteMovesShellCommands(moves, os.Stdout)` is recorded
  with the writer it is given; the rendering itself belongs to packages
  outside main.go;
* errors built by `run` with `fmt.Errorf` keep their format string and
  operands, and are distinct from the error values collaborators return.
-/

namespace Tfautomv

/-! ## Data model -/

/-- The types of the values exchanged with the collaborators. -/
structure Sig where
  /-- State of the outside world: file system, terraform working directory. -/
  World : Type
  /-- Go `*tfexec.Terraform` -/
  Terraform : Type
  /-- Go `*version.Version` -/
  Version : Type
  /-- Go `ignore.Rule` -/
  Rule : Type
  /-- Go `*tfjson.Plan` -/
  Plan : Type
  /-- Go `*tfautomv.Analysis` -/
  Analysis : Type
  /-- Go `terraform.Move` -/
  Move : Type
  /-- Go `[]byte` -/
  Bytes : Type
  /-- Error values returned by collaborators. -/
  Err : Type

/-- Flags (main.go, lines 168-177), with the defaults registered by
`parseFlags` (lines 180-187). -/
structure Flags where
  dryRun : Bool := false
  ignoreRules : List String := []
  noColor : Bool := false
  outputFormat : String := "blocks"
  printVersion : Bool := false
  showAnalysis : Bool := false
  terraformBin : String := "terraform"
  jsonPlanFile : String := ""

/-- An operand of `fmt.Errorf`. -/
inductive Arg (S : Sig) where
  | str (s : String)
  | err (e : S.Err)

/-- The error values `run` can return: an error received from a collaborator,
returned as it is, or an error built by `run` itself with
`fmt.Errorf(format, args...)`; with the verb `%w` the error operand is the
wrapped error. -/
inductive GoError (S : Sig) where
  | ext (e : S.Err)
  | errorf (format : String) (args : List (Arg S))

/-- The error wrapped by an error value (`errors.Unwrap`): the `%w` operand
of an `Errorf`. -/
def GoError.unwrap {S : Sig} : GoError S → Option S.Err
  | .ext _ => none
  | .errorf _ args => args.findSome? (fun a => match a with
      | .err e => some e
      | .str _ => none)

inductive Stream where
  | stdout
  | stderr
  deriving DecidableEq

/-- What is printed: the argument of `fmt.Println` or the call of the `format`
package whose result is handed to `fmt.Fprint`. -/
inductive Text (S : Sig) where
  /-- Go `fmt.Println(s)` -/
  | line (s : String)
  /-- Go `format.Info(msg)` -/
  | info (msg : String)
  /-- Go `format.Analysis(a)` -/
  | analysis (a : S.Analysis)
  /-- Go `format.Done(msg)` -/
  | done (msg : String)
  /-- Go `format.Moves(ms)` -/
  | moves (ms : List S.Move)

/-- One call made by `run`. -/
inductive Event (S : Sig) where
  /-- Go `format.NoColor = true` -/
  | setNoColor
  /-- Go `fmt.Println` (stdout) or `fmt.Fprint(os.Stderr, ...)` -/
  | print (dest : Stream) (t : Text S)
  /-- Go `tfexec.NewTerraform(workingDir, execPath)` -/
  | newTerraform (workingDir execPath : String) (r : Except S.Err S.Terraform)
  /-- Go `tf.Version(ctx, false)` -/
  | tfVersion (r : Except S.Err S.Version)
  /-- Go `ignore.ParseRule(raw)` -/
  | parseRule (raw : String)
  /-- Go `tf.Init(ctx)` -/
  | tfInit (r : Option S.Err)
  /-- Go `os.CreateTemp(dir, pattern)`; the result is the name of the file -/
  | createTemp (dir pattern : String) (r : Except S.Err String)
  /-- Go `tf.Plan(ctx, tfexec.Out(out))` -/
  | tfPlan (out : String) (r : Except S.Err Bool)
  /-- Go `tf.ShowPlanFile(ctx, path)` -/
  | showPlanFile (path : String) (r : Except S.Err S.Plan)
  /-- Go `os.Remove(name)`, deferred -/
  | remove (name : String)
  /-- Go `os.ReadFile(name)` -/
  | readFile (name : String) (r : Except S.Err S.Bytes)
  /-- Go `json.Unmarshal(data, &plan)` -/
  | unmarshal (data : S.Bytes)
  /-- Go `tfautomv.AnalysisFromPlan(plan, rules)` -/
  | analysisFromPlan (plan : S.Plan) (rules : List S.Rule)
  /-- Go `tfautomv.MovesFromAnalysis(analysis)` -/
  | movesFromAnalysis (a : S.Analysis)
  /-- Go `terraform.AppendMovesToFile(moves, path)` -/
  | appendMovesToFile (moves : List S.Move) (path : String) (r : Option S.Err)
  /-- Go `terraform.WriteMovesShellCommands(moves, w)` -/
  | writeMovesShellCommands (moves : List S.Move) (dest : Stream)

/-- The collaborators of `run`. -/
structure Env (S : Sig) where
  /-- Content of the embedded file VERSION (line 30). -/
  tfautomvVersion : String
  NewTerraform : String → String → S.World → Except S.Err S.Terraform × S.World
  Version : S.Terraform → S.World → Except S.Err S.Version × S.World
  /-- Value of `version.Must(version.NewVersion("1.1"))`. -/
  v1_1 : S.Version
  /-- Go `(*version.Version).Compare`: negative, zero or positive. -/
  Compare : S.Version → S.Version → Int
  /-- Go `(*version.Version).String` -/
  versionString : S.Version → String
  ParseRule : String → Except S.Err S.Rule
  Init : S.Terraform → S.World → Option S.Err × S.World
  CreateTemp : String → String → S.World → Except S.Err String × S.World
  Plan : S.Terraform → String → S.World → Except S.Err Bool × S.World
  ShowPlanFile : S.Terraform → String → S.World → Except S.Err S.Plan × S.World
  Remove : String → S.World → Option S.Err × S.World
  ReadFile : String → S.World → Except S.Err S.Bytes × S.World
  Unmarshal : S.Bytes → Except S.Err S.Plan
  AnalysisFromPlan : S.Plan → List S.Rule → Except S.Err S.Analysis
  MovesFromAnalysis : S.Analysis → List S.Move
  AppendMovesToFile : List S.Move → String → S.World → Option S.Err × S.World

/-- What one execution of `run` leaves behind. -/
structure Outcome (S : Sig) where
  /-- The error returned by `run`; `none` is `nil`. -/
  err : Option (GoError S)
  /-- The calls made, in program order. -/
  events : List (Event S)
  world : S.World

variable {S : Sig}

/-- The calls `evs` were made, then the execution went on as `o`. -/
def emit (evs : List (Event S)) (o : Outcome S) : Outcome S :=
  { o with events := evs ++ o.events }

/-- Go `logln(msg)` (lines 163-165): `fmt.Fprint(os.Stderr, format.Info(msg))`. -/
def logln (msg : String) : Event S := .print .stderr (.info msg)

/-- Go `v.LessThan(o)` of go-version: `v.Compare(o) < 0`. -/
def LessThan (E : Env S) (v o : S.Version) : Bool := decide (E.Compare v o < 0)

/-- Go `v.GreaterThanOrEqual(o)` of go-version: `v.Compare(o) >= 0`. -/
def GreaterThanOrEqual (E : Env S) (v o : S.Version) : Bool := decide (E.Compare v o ≥ 0)

/-! ## The program -/

/-- Lines 144-160 of `run`: the second switch on `outputFormat`. -/
def writeMoves (E : Env S) (fl : Flags) (moves : List S.Move) (w : S.World) : Outcome S :=
  if fl.outputFormat = "blocks" then
    match E.AppendMovesToFile moves "moves.tf" w with
    | (some err, w1) =>
      ⟨some (.ext err), [.appendMovesToFile moves "moves.tf" (some err)], w1⟩
    | (none, w1) =>
      ⟨none,
       [.appendMovesToFile moves "moves.tf" none,
        .print .stderr (.done
          ("Added " ++ toString moves.length ++ " moved blocks to \"moves.tf\"."))],
       w1⟩
  else if fl.outputFormat = "commands" then
    ⟨none,
     [.writeMovesShellCommands moves .stdout,
      .print .stderr (.done
        ("Wrote " ++ toString moves.length ++ " commands to standard output."))],
     w⟩
  else
    ⟨some (.errorf "unknown output format %q" [.str fl.outputFormat]), [], w⟩

/-- Lines 119-160 of `run`: from "Analysing plan..." to the end. -/
def analyse (E : Env S) (fl : Flags) (plan : S.Plan) (rules : List S.Rule) (w : S.World) :
    Outcome S :=
  emit [logln "Analysing plan...", .analysisFromPlan plan rules] <|
  match E.AnalysisFromPlan plan rules with
  | .error err => ⟨some (.ext err), [], w⟩
  | .ok analysis =>
    emit (if fl.showAnalysis then [.print .stderr (.analysis analysis)] else []) <|
    emit [.movesFromAnalysis analysis] <|
    if (E.MovesFromAnalysis analysis).length = 0 then
      ⟨none, [.print .stderr (.done "Found no moves to make")], w⟩
    else if fl.dryRun then
      ⟨none, [.print .stderr (.moves (E.MovesFromAnalysis analysis))], w⟩
    else
      writeMoves E fl (E.MovesFromAnalysis analysis) w

/-- The deferred `os.Remove(planFile.Name())` (line 99): it runs when `run`
returns, whatever `run` returns. -/
def deferRemove (E : Env S) (name : String) (o : Outcome S) : Outcome S :=
  { o with events := o.events ++ [.remove name], world := (E.Remove name o.world).2 }

/-- Lines 84-160 of `run`: obtain the plan, then analyse it. -/
def obtainPlan (E : Env S) (fl : Flags) (tf : S.Terraform) (rules : List S.Rule)
    (w : S.World) : Outcome S :=
  if fl.jsonPlanFile = "" then
    match E.Init tf w with
    | (some err, w1) => ⟨some (.ext err), [logln "Running \"terraform init\"...", .tfInit (some err)], w1⟩
    | (none, w1) =>
      emit [logln "Running \"terraform init\"...", .tfInit none] <|
      match E.CreateTemp "" "tfautomv.*.plan" w1 with
      | (.error err, w2) =>
        ⟨some (.ext err),
         [logln "Running \"terraform plan\"...", .createTemp "" "tfautomv.*.plan" (.error err)],
         w2⟩
      | (.ok planFile, w2) =>
        emit [logln "Running \"terraform plan\"...",
              .createTemp "" "tfautomv.*.plan" (.ok planFile)] <|
        deferRemove E planFile <|
        match E.Plan tf planFile w2 with
        | (.error err, w3) => ⟨some (.ext err), [.tfPlan planFile (.error err)], w3⟩
        | (.ok b, w3) =>
          emit [.tfPlan planFile (.ok b)] <|
          match E.ShowPlanFile tf planFile w3 with
          | (.error err, w4) => ⟨some (.ext err), [.showPlanFile planFile (.error err)], w4⟩
          | (.ok plan, w4) =>
            emit [.showPlanFile planFile (.ok plan)] <|
            analyse E fl plan rules w4
  else
    match E.ReadFile fl.jsonPlanFile w with
    | (.error err, w1) => ⟨some (.ext err), [.readFile fl.jsonPlanFile (.error err)], w1⟩
    | (.ok jsonPlan, w1) =>
      emit [.readFile fl.jsonPlanFile (.ok jsonPlan), .unmarshal jsonPlan] <|
      match E.Unmarshal jsonPlan with
      | .error err => ⟨some (.ext err), [], w1⟩
      | .ok plan => analyse E fl plan rules w1

/-- Lines 72-79 of `run`: the loop over `ignoreRules`; `rules` is the slice
built so far.  Returns the error of the loop or the rules, and the calls made. -/
def parseRules (E : Env S) : List String → List S.Rule →
    Except (GoError S) (List S.Rule) × List (Event S)
  | [], rules => (.ok rules, [])
  | raw :: rest, rules =>
    match E.ParseRule raw with
    | .error err =>
      (.error (.errorf "invalid rule passed with -ignore flag %q: %w" [.str raw, .err err]),
       [.parseRule raw])
    | .ok r =>
      ((parseRules E rest (rules ++ [r])).1, .parseRule raw :: (parseRules E rest (rules ++ [r])).2)

/-- Lines 70-160 of `run`: parse the rules, then obtain and analyse the plan. -/
def afterCheck (E : Env S) (fl : Flags) (tf : S.Terraform) (w : S.World) : Outcome S :=
  emit (parseRules E fl.ignoreRules []).2 <|
  match (parseRules E fl.ignoreRules []).1 with
  | .error err => ⟨some err, [], w⟩
  | .ok rules => obtainPlan E fl tf rules w

/-- The function `run` (lines 32-161); `fl` holds the flags as `parseFlags`
left them and `w` is the world at the start. -/
def run (E : Env S) (fl : Flags) (w : S.World) : Outcome S :=
  emit (if fl.noColor then [.setNoColor] else []) <|
  if fl.printVersion then
    ⟨none, [.print .stdout (.line E.tfautomvVersion)], w⟩
  else
    match E.NewTerraform "." fl.terraformBin w with
    | (.error err, w1) =>
      ⟨some (.ext err), [.newTerraform "." fl.terraformBin (.error err)], w1⟩
    | (.ok tf, w1) =>
      emit [.newTerraform "." fl.terraformBin (.ok tf)] <|
      match E.Version tf w1 with
      | (.error err, w2) => ⟨some (.ext err), [.tfVersion (.error err)], w2⟩
      | (.ok tfVer, w2) =>
        emit [.tfVersion (.ok tfVer)] <|
        if fl.outputFormat = "blocks" then
          if LessThan E tfVer E.v1_1 then
            ⟨some (.errorf "terraform version %s does not support moved blocks"
                [.str (E.versionString tfVer)]), [], w2⟩
          else afterCheck E fl tf w2
        else if fl.outputFormat = "commands" then
          afterCheck E fl tf w2
        else
          ⟨some (.errorf "unknown output format %q" [.str fl.outputFormat]), [], w2⟩

/-! ## The `-ignore` flag value (lines 192-206) -/

/-- A Go `[]string`; `none` is the nil slice. -/
abbrev StringSlice := Option (List String)

/-- The elements of a slice; the nil slice has none. -/
def StringSlice.elems (s : StringSlice) : List String := s.getD []

/-- Go `append(s, x)` on a `[]string`: the result is never nil. -/
def StringSlice.append (s : StringSlice) (x : String) : StringSlice :=
  some (s.elems ++ [x])

/-- Go `stringSliceValue.Set` (lines 203-206), as a step on the slice `*v.s` the
value points to (`parseFlags` registers `stringSliceValue{&ignoreRules}`):
returns the error of `Set` (`none` is `nil`) and the new content of `*v.s`. -/
def stringSliceValue.Set (raw : String) (s : StringSlice) : Option String × StringSlice :=
  (none, s.append raw)

/-- The calls `Set(r1)`, ..., `Set(rn)` in turn, as the `flag` package makes
them for `-ignore r1 ... -ignore rn`: the errors returned, one per call, and
the final content of the slice. -/
def stringSliceValue.setAll : List String → StringSlice → List (Option String) × StringSlice
  | [], s => ([], s)
  | r :: rs, s =>
    ((stringSliceValue.Set r s).1 :: (setAll rs (stringSliceValue.Set r s).2).1,
     (setAll rs (stringSliceValue.Set r s).2).2)

/-! ## A concrete environment

A small world in which every collaborator is a total, computable function; it
is used to run `run` on concrete flags. -/

/-- Worlds are journals of the operations done on them, versions are pairs
(major, minor), plans and analyses are lists of pairs of addresses, a move is
a pair of addresses, errors are messages. -/
def exampleSig : Sig where
  World := List String
  Terraform := String
  Version := Nat × Nat
  Rule := String
  Plan := List (String × String)
  Analysis := List (String × String)
  Move := String × String
  Bytes := String
  Err := String

def exampleCompare (a b : Nat × Nat) : Int :=
  if a.1 < b.1 then -1
  else if b.1 < a.1 then 1
  else if a.2 < b.2 then -1
  else if b.2 < a.2 then 1
  else 0

def exampleEnv : Env exampleSig where
  tfautomvVersion := "0.5.0"
  NewTerraform := fun (_ bin : String) (w : List String) =>
    if bin = "" then (.error "no binary", w) else (.ok bin, w)
  Version := fun (tf : String) (w : List String) =>
    if tf = "terraform-1.0" then (.ok (1, 0), w) else (.ok (1, 3), w)
  v1_1 := (1, 1)
  Compare := exampleCompare
  versionString := fun (v : Nat × Nat) => toString v.1 ++ "." ++ toString v.2
  ParseRule := fun (raw : String) => if raw = "" then .error "empty rule" else .ok raw
  Init := fun (_ : String) (w : List String) => (none, w ++ ["init"])
  CreateTemp := fun (_ _ : String) (w : List String) =>
    (.ok "/tmp/tfautomv.1.plan", w ++ ["create"])
  Plan := fun (_ _ : String) (w : List String) => (.ok true, w ++ ["plan"])
  ShowPlanFile := fun (_ _ : String) (w : List String) => (.ok [("a.old", "a.new")], w)
  Remove := fun (_ : String) (w : List String) => (none, w ++ ["remove"])
  ReadFile := fun (name : String) (w : List String) =>
    if name = "missing.json" then (.error "no such file", w) else (.ok name, w)
  Unmarshal := fun (data : String) =>
    if data = "bad.json" then .error "invalid JSON"
    else if data = "empty.json" then .ok []
    else .ok [("a.old", "a.new")]
  AnalysisFromPlan := fun (p : List (String × String)) _ =>
    if p.length = 0 then .error "malformed plan" else .ok p
  MovesFromAnalysis := fun (a : List (String × String)) => a
  AppendMovesToFile := fun _ _ (w : List String) => (none, w ++ ["append"])

/-- Flags `-output commands -ignore aws_instance.tags -ignore "" -ignore x`. -/
def flagsInvalidRule : Flags :=
  { outputFormat := "commands", ignoreRules := ["aws_instance.tags", "", "x"] }

/-- Flags `-output commands -plan-file empty.json`. -/
def flagsEmptyPlan : Flags :=
  { outputFormat := "commands", jsonPlanFile := "empty.json" }

/-- Flags `-terraform-bin terraform-1.0`, with the default format "blocks". -/
def flagsOldTerraform : Flags :=
  { terraformBin := "terraform-1.0" }

/-- Flags `-dry-run -plan-file plan.json`, with the default format "blocks". -/
def flagsDryRun : Flags :=
  { dryRun := true, jsonPlanFile := "plan.json" }

/-- Flags `-output commands`: terraform is run to obtain the plan. -/
def flagsCommands : Flags :=
  { outputFormat := "commands" }

/-- Flags `-version -output yaml -ignore ""`. -/
def flagsVersion : Flags :=
  { printVersion := true, outputFormat := "yaml", ignoreRules := [""] }

/-- Flags `-show-analysis -output commands -plan-file plan.json`. -/
def flagsShowAnalysis : Flags :=
  { showAnalysis := true, outputFormat := "commands", jsonPlanFile := "plan.json" }

/-- Flags `-output yaml`. -/
def flagsYaml : Flags :=
  { outputFormat := "yaml" }

/-- Flags `-output commands -plan-file plan.json`. -/
def flagsCommandsFile : Flags :=
  { outputFormat := "commands", jsonPlanFile := "plan.json" }

/-- Flags `-plan-file plan.json`, with the default format "blocks". -/
def flagsBlocksFile : Flags :=
  { jsonPlanFile := "plan.json" }

/-- Flags `-plan-file missing.json`. -/
def flagsMissingFile : Flags :=
  { jsonPlanFile := "missing.json" }

/-! ## Classes of events -/

@[simp] def Event.isParseRule : Event S → Bool
  | .parseRule _ => true
  | _ => false

@[simp] def Event.isInit : Event S → Bool
  | .tfInit _ => true
  | _ => false

@[simp] def Event.isPlan : Event S → Bool
  | .tfPlan _ _ => true
  | _ => false

@[simp] def Event.isCreateTemp : Event S → Bool
  | .createTemp _ _ _ => true
  | _ => false

@[simp] def Event.isShowPlanFile : Event S → Bool
  | .showPlanFile _ _ => true
  | _ => false

@[simp] def Event.isReadFile : Event S → Bool
  | .readFile _ _ => true
  | _ => false

@[simp] def Event.isUnmarshal : Event S → Bool
  | .unmarshal _ => true
  | _ => false

@[simp] def Event.isNewTerraform : Event S → Bool
  | .newTerraform _ _ _ => true
  | _ => false

@[simp] def Event.isVersion : Event S → Bool
  | .tfVersion _ => true
  | _ => false

@[simp] def Event.isAnalysisFromPlan : Event S → Bool
  | .analysisFromPlan _ _ => true
  | _ => false

@[simp] def Event.isMovesFromAnalysis : Event S → Bool
  | .movesFromAnalysis _ => true
  | _ => false

@[simp] def Event.isAppendMoves : Event S → Bool
  | .appendMovesToFile _ _ _ => true
  | _ => false

@[simp] def Event.isWriteCommands : Event S → Bool
  | .writeMovesShellCommands _ _ => true
  | _ => false

/-- A write of moves: to a file or as shell commands. -/
def Event.writesMoves (e : Event S) : Bool := e.isAppendMoves || e.isWriteCommands

/-- The report `format.Analysis` is printed. -/
@[simp] def Event.printsAnalysis : Event S → Bool
  | .print _ (.analysis _) => true
  | _ => false

/-- The moves are printed with `format.Moves`. -/
@[simp] def Event.printsMoves : Event S → Bool
  | .print _ (.moves _) => true
  | _ => false

/-- The call writes, or is given, standard output. -/
@[simp] def Event.toStdout : Event S → Bool
  | .print .stdout _ => true
  | .writeMovesShellCommands _ .stdout => true
  | _ => false

/-- A completion message, `format.Done`, is printed. -/
@[simp] def Event.printsDone : Event S → Bool
  | .print _ (.done _) => true
  | _ => false

/-- Calls that come from the analysis on: `AnalysisFromPlan`,
`MovesFromAnalysis`, the report, and every print or write of moves. -/
def Event.usesAnalysis (e : Event S) : Bool :=
  e.isAnalysisFromPlan || e.isMovesFromAnalysis || e.printsAnalysis || e.printsMoves ||
    e.writesMoves

/-- The calls made by `run` up to and including `tf.Version`, when both
`NewTerraform` and `Version` succeed. -/
def startEvents (fl : Flags) (tf : S.Terraform) (v : S.Version) : List (Event S) :=
  (if fl.noColor then [.setNoColor] else []) ++
    [.newTerraform "." fl.terraformBin (.ok tf), .tfVersion (.ok v)]

/-- Calls made up to the first switch. -/
def Event.beforeCheck : Event S → Bool
  | .setNoColor => true
  | .print .stdout (.line _) => true
  | .newTerraform _ _ _ => true
  | .tfVersion _ => true
  | _ => false

/-- The steps that lead from terraform to the analysis: `tf.Init`, `tf.Plan`,
`tf.ShowPlanFile`, `AnalysisFromPlan`. -/
def Event.planStep (e : Event S) : Bool :=
  e.isInit || e.isPlan || e.isShowPlanFile || e.isAnalysisFromPlan

/-- The call concerns moves: `MovesFromAnalysis`, a print of moves, a write
of moves. -/
def Event.aboutMoves (e : Event S) : Bool :=
  e.isMovesFromAnalysis || e.printsMoves || e.writesMoves

/-- An outcome without the report of the analysis among its calls. -/
def hush (o : Outcome S) : Outcome S :=
  { o with events := o.events.filter (fun e => !e.printsAnalysis) }

/-- The call is given, or returns, the name of a file that it creates, reads,
writes or removes. -/
@[simp] def Event.touchesFile : Event S → Bool
  | .createTemp _ _ _ => true
  | .tfPlan _ _ => true
  | .showPlanFile _ _ => true
  | .remove _ => true
  | .readFile _ _ => true
  | .appendMovesToFile _ _ _ => true
  | _ => false

/-- The call made by the `defer` of line 99 when `run` returns: `tmp` is the
name of the temporary plan file, `none` when no `defer` was registered
(the plan came from `-plan-file`). -/
def deferredEvents (tmp : Option String) : List (Event S) :=
  match tmp with
  | none => []
  | some name => [.remove name]

/-- The world after the `defer` of line 99 ran on the world `w`. -/
def deferredWorld (E : Env S) (tmp : Option String) (w : S.World) : S.World :=
  match tmp with
  | none => w
  | some name => (E.Remove name w).2

/-- The two ways through lines 84-117 that end with a plan: from the world
`w2`, the calls `pre` were made, they returned the plan `p` and left the world
`w3`, and `tmp` is the temporary file whose removal is deferred.  Either
`-plan-file` is set, the file was read and its content decoded to `p`; or
`-plan-file` is empty, `tf.Init` succeeded, `os.CreateTemp` returned `name`,
`tf.Plan` wrote to `name`, and then `tf.ShowPlanFile` on `name` returned `p`. -/
def PlanObtained (E : Env S) (fl : Flags) (tf : S.Terraform) (w2 : S.World)
    (pre : List (Event S)) (p : S.Plan) (w3 : S.World) (tmp : Option String) : Prop :=
  (fl.jsonPlanFile ≠ "" ∧ ∃ data,
    E.ReadFile fl.jsonPlanFile w2 = (.ok data, w3) ∧
    E.Unmarshal data = .ok p ∧
    pre = [.readFile fl.jsonPlanFile (.ok data), .unmarshal data] ∧
    tmp = none) ∨
  (fl.jsonPlanFile = "" ∧ ∃ wa name wb b wc,
    E.Init tf w2 = (none, wa) ∧
    E.CreateTemp "" "tfautomv.*.plan" wa = (.ok name, wb) ∧
    E.Plan tf name wb = (.ok b, wc) ∧
    E.ShowPlanFile tf name wc = (.ok p, w3) ∧
    pre = [logln "Running \"terraform init\"...", .tfInit none,
      logln "Running \"terraform plan\"...",
      .createTemp "" "tfautomv.*.plan" (.ok name), .tfPlan name (.ok b),
      .showPlanFile name (.ok p)] ∧
    tmp = some name)

/-- The print of the completion message `msg` after a call that returned the
error `r`: made when `r` is nil, not made otherwise (the error is returned
first). -/
def doneUnlessError (r : Option S.Err) (msg : String) : List (Event S) :=
  match r with
  | none => [.print .stderr (.done msg)]
  | some _ => []

/-- The calls of `run` before line 84, when `NewTerraform` and `Version`
succeed, the format is accepted and every rule parses: those up to
`tf.Version`, then one call of `ParseRule` per `-ignore` string, in order. -/
def eventsBeforePlan (fl : Flags) (tf : S.Terraform) (v : S.Version) : List (Event S) :=
  startEvents fl tf v ++ fl.ignoreRules.map .parseRule

/-- The calls of `run` up to and including `MovesFromAnalysis`, when the rules
parse, the calls `pre` obtain the plan `p` and its analysis is `a`. -/
def eventsBeforeWrite (fl : Flags) (tf : S.Terraform) (v : S.Version) (pre : List (Event S))
    (p : S.Plan) (rules : List S.Rule) (a : S.Analysis) : List (Event S) :=
  startEvents fl tf v ++ fl.ignoreRules.map .parseRule ++ pre ++
    [logln "Analysing plan...", .analysisFromPlan p rules] ++
    (if fl.showAnalysis then [.print .stderr (.analysis a)] else []) ++
    [.movesFromAnalysis a]

/-! ## Basic lemmas -/

@[simp] theorem emit_events (evs : List (Event S)) (o : Outcome S) :
    (emit evs o).events = evs ++ o.events := rfl

@[simp] theorem emit_err (evs : List (Event S)) (o : Outcome S) :
    (emit evs o).err = o.err := rfl

@[simp] theorem emit_world (evs : List (Event S)) (o : Outcome S) :
    (emit evs o).world = o.world := rfl

@[simp] theorem deferRemove_events (E : Env S) (name : String) (o : Outcome S) :
    (deferRemove E name o).events = o.events ++ [.remove name] := rfl

@[simp] theorem deferRemove_err (E : Env S) (name : String) (o : Outcome S) :
    (deferRemove E name o).err = o.err := rfl

theorem parseRules_events_mem (E : Env S) (raws : List String) (acc : List S.Rule)
    (e : Event S) (h : e ∈ (parseRules E raws acc).2) : ∃ raw, e = .parseRule raw := by
  induction raws generalizing acc with
  | nil => simp [parseRules] at h
  | cons raw rest ih =>
    unfold parseRules at h
    split at h
    · simp at h; exact ⟨raw, h⟩
    · simp at h
      rcases h with h | h
      · exact ⟨raw, h⟩
      · exact ih _ h

/-- The loop stops at the first string that `ParseRule` rejects. -/
theorem parseRules_first_rejected (E : Env S) (pre : List String) (raw : String)
    (post : List String) (acc : List S.Rule) (e : S.Err)
    (hpre : ∀ r ∈ pre, ∃ rule, E.ParseRule r = .ok rule)
    (hraw : E.ParseRule raw = .error e) :
    parseRules E (pre ++ raw :: post) acc =
      (.error (.errorf "invalid rule passed with -ignore flag %q: %w" [.str raw, .err e]),
       (pre ++ [raw]).map .parseRule) := by
  induction pre generalizing acc with
  | nil => simp [parseRules, hraw]
  | cons r rest ih =>
    obtain ⟨rule, hr⟩ := hpre r (by simp)
    have ih2 := ih (acc ++ [rule]) (fun x hx => hpre x (by simp [hx]))
    simp [parseRules, hr, ih2]

theorem afterCheck_events_ne_nil (E : Env S) (fl : Flags) (tf : S.Terraform) (w : S.World) :
    (afterCheck E fl tf w).events ≠ [] := by
  unfold afterCheck
  cases hig : fl.ignoreRules with
  | cons raw rest =>
    simp only [parseRules]
    split <;> simp
  | nil =>
    simp only [parseRules, emit_events, List.nil_append]
    unfold obtainPlan
    split
    · split
      · simp
      · simp
    · split <;> simp

theorem greaterThanOrEqual_eq_not_lessThan (E : Env S) (v o : S.Version) :
    GreaterThanOrEqual E v o = !LessThan E v o := by
  unfold GreaterThanOrEqual LessThan
  by_cases h : E.Compare v o < 0
  · have h2 : ¬ (E.Compare v o ≥ 0) := by omega
    simp [h, h2]
  · have h2 : E.Compare v o ≥ 0 := by omega
    simp [h, h2]

/-- Up to the first switch: `run` after `NewTerraform` and `Version` succeeded. -/
theorem run_start (E : Env S) (fl : Flags) (w : S.World) (tf : S.Terraform) (w1 : S.World)
    (v : S.Version) (w2 : S.World)
    (hv : fl.printVersion = false)
    (htf : E.NewTerraform "." fl.terraformBin w = (.ok tf, w1))
    (hver : E.Version tf w1 = (.ok v, w2)) :
    run E fl w = emit (startEvents fl tf v)
      (if fl.outputFormat = "blocks" then
        if LessThan E v E.v1_1 then
          ⟨some (.errorf "terraform version %s does not support moved blocks"
              [.str (E.versionString v)]), [], w2⟩
        else afterCheck E fl tf w2
      else if fl.outputFormat = "commands" then
        afterCheck E fl tf w2
      else
        ⟨some (.errorf "unknown output format %q" [.str fl.outputFormat]), [], w2⟩) := by
  simp [run, hv, htf, hver, startEvents, emit]

theorem startEvents_classes (fl : Flags) (tf : S.Terraform) (v : S.Version) :
    ∀ e ∈ (startEvents fl tf v : List (Event S)),
      e.isParseRule = false ∧ e.isInit = false ∧ e.isPlan = false ∧ e.isReadFile = false ∧
      e.usesAnalysis = false ∧ e.toStdout = false ∧ e.printsDone = false := by
  intro e he
  have h : e = .setNoColor ∨ e = .newTerraform "." fl.terraformBin (.ok tf) ∨
      e = .tfVersion (.ok v) := by
    unfold startEvents at he
    split at he <;> simp at he <;> tauto
  rcases h with h | h | h <;> subst h <;>
    simp [Event.isParseRule, Event.isInit, Event.isPlan, Event.isReadFile, Event.usesAnalysis,
      Event.isAnalysisFromPlan, Event.isMovesFromAnalysis, Event.printsAnalysis,
      Event.printsMoves, Event.writesMoves, Event.isAppendMoves, Event.isWriteCommands,
      Event.toStdout]

/-- Past the first switch: the format is accepted and `run` goes on with the
code after the check. -/
theorem run_pass (E : Env S) (fl : Flags) (w : S.World) (tf : S.Terraform) (w1 : S.World)
    (v : S.Version) (w2 : S.World)
    (hv : fl.printVersion = false)
    (htf : E.NewTerraform "." fl.terraformBin w = (.ok tf, w1))
    (hver : E.Version tf w1 = (.ok v, w2))
    (hfmt : fl.outputFormat = "commands" ∨
      (fl.outputFormat = "blocks" ∧ GreaterThanOrEqual E v E.v1_1 = true)) :
    run E fl w = emit (startEvents fl tf v) (afterCheck E fl tf w2) := by
  rw [run_start E fl w tf w1 v w2 hv htf hver]
  rcases hfmt with hc | ⟨hb, hg⟩
  · have hb : fl.outputFormat ≠ "blocks" := by rw [hc]; decide
    simp [hb, hc]
  · rw [greaterThanOrEqual_eq_not_lessThan] at hg
    have hl : LessThan E v E.v1_1 = false := by simpa using hg
    simp [hb, hl]

/-- Stopped at the first switch: the error of the switch, and no further call. -/
theorem run_stop (E : Env S) (fl : Flags) (w : S.World) (tf : S.Terraform) (w1 : S.World)
    (v : S.Version) (w2 : S.World)
    (hv : fl.printVersion = false)
    (htf : E.NewTerraform "." fl.terraformBin w = (.ok tf, w1))
    (hver : E.Version tf w1 = (.ok v, w2))
    (hfmt : ¬ (fl.outputFormat = "commands" ∨
      (fl.outputFormat = "blocks" ∧ GreaterThanOrEqual E v E.v1_1 = true))) :
    run E fl w = emit (startEvents fl tf v)
      ⟨some (if fl.outputFormat = "blocks" then
          .errorf "terraform version %s does not support moved blocks"
            [.str (E.versionString v)]
        else .errorf "unknown output format %q" [.str fl.outputFormat]), [], w2⟩ := by
  rw [run_start E fl w tf w1 v w2 hv htf hver]
  rw [greaterThanOrEqual_eq_not_lessThan] at hfmt
  by_cases hb : fl.outputFormat = "blocks"
  · have hl : LessThan E v E.v1_1 = true := by
      cases h : LessThan E v E.v1_1
      · exact absurd (Or.inr ⟨hb, by simp [h]⟩) hfmt
      · rfl
    simp [hb, hl]
  · have hc : fl.outputFormat ≠ "commands" := fun h => hfmt (Or.inl h)
    simp [hb, hc]

theorem parseRule_classes (raw : String) :
    (Event.parseRule raw : Event S).isInit = false ∧
    (Event.parseRule raw : Event S).isPlan = false ∧
    (Event.parseRule raw : Event S).isReadFile = false ∧
    (Event.parseRule raw : Event S).usesAnalysis = false ∧
    (Event.parseRule raw : Event S).toStdout = false ∧
    (Event.parseRule raw : Event S).printsDone = false := by
  simp [Event.isInit, Event.isPlan, Event.isReadFile, Event.usesAnalysis,
      Event.isAnalysisFromPlan, Event.isMovesFromAnalysis, Event.printsAnalysis,
      Event.printsMoves, Event.writesMoves, Event.isAppendMoves, Event.isWriteCommands,
      Event.toStdout]

/-- The shape of an execution of the code from line 84 on: either it stops
before the analysis, or its calls are those of `analyse` on the plan obtained,
between calls that neither use an analysis nor touch standard output. -/
theorem obtainPlan_shape (E : Env S) (fl : Flags) (tf : S.Terraform) (rules : List S.Rule)
    (w : S.World) :
    (∀ e ∈ (obtainPlan E fl tf rules w).events, e.usesAnalysis = false) ∨
    (∃ pre post plan w1,
      (obtainPlan E fl tf rules w).events =
        pre ++ (analyse E fl plan rules w1).events ++ post ∧
      (obtainPlan E fl tf rules w).err = (analyse E fl plan rules w1).err ∧
      (∀ e ∈ pre, e.usesAnalysis = false ∧ e.toStdout = false ∧ e.printsDone = false) ∧
      (∀ e ∈ post, e.usesAnalysis = false ∧ e.toStdout = false ∧ e.printsDone = false) ∧
      (post = [] ∨ ∃ name, post = [.remove name])) := by
  unfold obtainPlan
  split
  · split
    · left; simp [logln, Event.usesAnalysis, Event.writesMoves]
    · split
      · left; simp [logln, Event.usesAnalysis, Event.writesMoves]
      · rename_i planFile w2 _
        split
        · left; simp [logln, Event.usesAnalysis, Event.writesMoves]
        · split
          · left; simp [logln, Event.usesAnalysis, Event.writesMoves]
          · rename_i _ b w3 _ _ plan w4 _
            right
            refine ⟨[logln "Running \"terraform init\"...", .tfInit none,
              logln "Running \"terraform plan\"...",
              .createTemp "" "tfautomv.*.plan" (.ok planFile), .tfPlan planFile (.ok b),
              .showPlanFile planFile (.ok plan)], [.remove planFile], plan, w4, ?_, ?_, ?_, ?_,
              Or.inr ⟨planFile, rfl⟩⟩
            · simp
            · simp
            · simp [logln, Event.usesAnalysis, Event.writesMoves]
            · simp [logln, Event.usesAnalysis, Event.writesMoves]
  · split
    · left; simp [logln, Event.usesAnalysis, Event.writesMoves]
    · rename_i jsonPlan w1 _
      split
      · left; simp [logln, Event.usesAnalysis, Event.writesMoves]
      · rename_i plan _
        right
        refine ⟨[.readFile fl.jsonPlanFile (.ok jsonPlan), .unmarshal jsonPlan], [], plan, w1,
          ?_, ?_, ?_, ?_, Or.inl rfl⟩
        · simp
        · simp
        · simp [Event.usesAnalysis, Event.writesMoves]
        · simp

theorem afterCheck_shape (E : Env S) (fl : Flags) (tf : S.Terraform) (w : S.World) :
    (∀ e ∈ (afterCheck E fl tf w).events, e.usesAnalysis = false) ∨
    (∃ pre post plan rules w1,
      (afterCheck E fl tf w).events =
        pre ++ (analyse E fl plan rules w1).events ++ post ∧
      (afterCheck E fl tf w).err = (analyse E fl plan rules w1).err ∧
      (∀ e ∈ pre, e.usesAnalysis = false ∧ e.toStdout = false ∧ e.printsDone = false) ∧
      (∀ e ∈ post, e.usesAnalysis = false ∧ e.toStdout = false ∧ e.printsDone = false) ∧
      (post = [] ∨ ∃ name, post = [.remove name])) := by
  have hp : ∀ e ∈ (parseRules E fl.ignoreRules []).2,
      e.usesAnalysis = false ∧ e.toStdout = false ∧ e.printsDone = false := by
    intro e he
    obtain ⟨raw, hraw⟩ := parseRules_events_mem E _ _ e he
    subst hraw
    simp [Event.usesAnalysis, Event.writesMoves]
  unfold afterCheck
  split
  · left
    intro e he
    simp at he
    exact (hp e he).1
  · rename_i rules _
    rcases obtainPlan_shape E fl tf rules w with h | ⟨pre, post, plan, w1, h1, h2, h3, h4, h7⟩
    · left
      intro e he
      simp at he
      rcases he with he | he
      · exact (hp e he).1
      · exact h e he
    · right
      refine ⟨(parseRules E fl.ignoreRules []).2 ++ pre, post, plan, rules, w1, ?_, ?_, ?_, h4, h7⟩
      · simp [h1]
      · simp [h2]
      · intro e he
        rw [List.mem_append] at he
        rcases he with he | he
        · exact hp e he
        · exact h3 e he

/-- The shape of an execution of `run`: either no call uses an analysis, or
the calls are those of `analyse`, on some plan and rules, between calls that
neither use an analysis nor touch standard output; in that case `-version` is
not set and the format is "blocks" or "commands". -/
theorem run_shape (E : Env S) (fl : Flags) (w : S.World) :
    (∀ e ∈ (run E fl w).events, e.usesAnalysis = false) ∨
    (∃ pre post plan rules w1,
      (run E fl w).events = pre ++ (analyse E fl plan rules w1).events ++ post ∧
      (run E fl w).err = (analyse E fl plan rules w1).err ∧
      (∀ e ∈ pre, e.usesAnalysis = false ∧ e.toStdout = false ∧ e.printsDone = false) ∧
      (∀ e ∈ post, e.usesAnalysis = false ∧ e.toStdout = false ∧ e.printsDone = false) ∧
      fl.printVersion = false ∧
      (fl.outputFormat = "blocks" ∨ fl.outputFormat = "commands") ∧
      (post = [] ∨ ∃ name, post = [.remove name])) := by
  have hnc : ∀ e ∈ (if fl.noColor then [Event.setNoColor] else [] : List (Event S)),
      e.usesAnalysis = false ∧ e.toStdout = false ∧ e.printsDone = false := by
    intro e he
    split at he
    · simp at he; subst he; simp [Event.usesAnalysis, Event.writesMoves]
    · simp at he
  have key : ∀ (tf : S.Terraform) (v : S.Version) (w2 : S.World) (evs : List (Event S)),
      (∀ e ∈ evs, e.usesAnalysis = false ∧ e.toStdout = false ∧ e.printsDone = false) →
      (fl.outputFormat = "blocks" ∨ fl.outputFormat = "commands") →
      fl.printVersion = false →
      (∀ e ∈ (emit evs (afterCheck E fl tf w2)).events, e.usesAnalysis = false) ∨
      (∃ pre post plan rules w1,
        (emit evs (afterCheck E fl tf w2)).events =
          pre ++ (analyse E fl plan rules w1).events ++ post ∧
        (emit evs (afterCheck E fl tf w2)).err = (analyse E fl plan rules w1).err ∧
        (∀ e ∈ pre, e.usesAnalysis = false ∧ e.toStdout = false ∧ e.printsDone = false) ∧
        (∀ e ∈ post, e.usesAnalysis = false ∧ e.toStdout = false ∧ e.printsDone = false) ∧
        fl.printVersion = false ∧
        (fl.outputFormat = "blocks" ∨ fl.outputFormat = "commands") ∧
      (post = [] ∨ ∃ name, post = [.remove name])) := by
    intro tf v w2 evs hevs hfmt hpv
    rcases afterCheck_shape E fl tf w2 with h | ⟨pre, post, plan, rules, w1, h1, h2, h3, h4, h7⟩
    · left
      intro e he
      simp at he
      rcases he with he | he
      · exact (hevs e he).1
      · exact h e he
    · right
      refine ⟨evs ++ pre, post, plan, rules, w1, ?_, ?_, ?_, h4, hpv, hfmt, h7⟩
      · simp [h1]
      · simp [h2]
      · intro e he
        rw [List.mem_append] at he
        rcases he with he | he
        · exact hevs e he
        · exact h3 e he
  by_cases hpv : fl.printVersion = true
  · left
    intro e he
    simp only [run, hpv, if_true, emit_events, List.mem_append] at he
    rcases he with he | he
    · exact (hnc e he).1
    · simp at he; subst he; simp [Event.usesAnalysis, Event.writesMoves]
  · have hpv : fl.printVersion = false := by simpa using hpv
    cases htf : E.NewTerraform "." fl.terraformBin w with
    | mk r1 w1 =>
      cases r1 with
      | error err =>
        left
        intro e he
        simp only [run, hpv, htf, emit_events, List.mem_append] at he
        rcases he with he | he
        · exact (hnc e he).1
        · simp at he; subst he; simp [Event.usesAnalysis, Event.writesMoves]
      | ok tf =>
        cases hver : E.Version tf w1 with
        | mk r2 w2 =>
          cases r2 with
          | error err =>
            left
            intro e he
            simp only [run, hpv, htf, hver, emit_events, List.mem_append] at he
            rcases he with he | he
            · exact (hnc e he).1
            · simp at he
              rcases he with he | he <;> subst he <;>
                simp [Event.usesAnalysis, Event.writesMoves]
          | ok v =>
            have hst : ∀ e ∈ (startEvents fl tf v : List (Event S)),
                e.usesAnalysis = false ∧ e.toStdout = false ∧ e.printsDone = false := fun e he =>
              (startEvents_classes fl tf v e he).2.2.2.2
            by_cases hfmt : fl.outputFormat = "commands" ∨
                (fl.outputFormat = "blocks" ∧ GreaterThanOrEqual E v E.v1_1 = true)
            · rw [run_pass E fl w tf w1 v w2 hpv htf hver hfmt]
              apply key tf v w2 _ hst _ hpv
              rcases hfmt with h | h
              · exact Or.inr h
              · exact Or.inl h.1
            · left
              rw [run_stop E fl w tf w1 v w2 hpv htf hver hfmt]
              intro e he
              simp at he
              exact (hst e he).1

theorem analyse_error (E : Env S) (fl : Flags) (p : S.Plan) (r : List S.Rule) (w : S.World)
    (e : S.Err) (h : E.AnalysisFromPlan p r = .error e) :
    analyse E fl p r w =
      ⟨some (.ext e), [logln "Analysing plan...", .analysisFromPlan p r], w⟩ := by
  simp [analyse, h, emit]

theorem analyse_ok (E : Env S) (fl : Flags) (p : S.Plan) (r : List S.Rule) (w : S.World)
    (a : S.Analysis) (h : E.AnalysisFromPlan p r = .ok a) :
    analyse E fl p r w =
      emit ([logln "Analysing plan...", .analysisFromPlan p r] ++
          (if fl.showAnalysis then [.print .stderr (.analysis a)] else []) ++
          [.movesFromAnalysis a])
        (if (E.MovesFromAnalysis a).length = 0 then
          ⟨none, [.print .stderr (.done "Found no moves to make")], w⟩
        else if fl.dryRun then
          ⟨none, [.print .stderr (.moves (E.MovesFromAnalysis a))], w⟩
        else
          writeMoves E fl (E.MovesFromAnalysis a) w) := by
  simp [analyse, h, emit]

/-- The calls made from `MovesFromAnalysis` on, for the analysis `a`. -/
theorem analyse_tail_cases (E : Env S) (fl : Flags) (a : S.Analysis) (w : S.World) (e : Event S)
    (he : e ∈ (if (E.MovesFromAnalysis a).length = 0 then
          (⟨none, [.print .stderr (.done "Found no moves to make")], w⟩ : Outcome S)
        else if fl.dryRun then
          ⟨none, [.print .stderr (.moves (E.MovesFromAnalysis a))], w⟩
        else
          writeMoves E fl (E.MovesFromAnalysis a) w).events) :
    e.isAnalysisFromPlan = false ∧ e.isMovesFromAnalysis = false ∧ e.printsAnalysis = false := by
  unfold writeMoves at he
  split at he
  · simp at he; subst he; simp
  · split at he
    · simp at he; subst he; simp
    · split at he
      · split at he
        · simp at he; subst he; simp
        · simp at he; rcases he with he | he <;> subst he <;> simp
      · split at he
        · simp at he; rcases he with he | he <;> subst he <;> simp
        · simp at he

theorem analyse_call_mem (E : Env S) (fl : Flags) (p : S.Plan) (r : List S.Rule) (w : S.World)
    (p1 : S.Plan) (r1 : List S.Rule)
    (h : .analysisFromPlan p1 r1 ∈ (analyse E fl p r w).events) : p1 = p ∧ r1 = r := by
  cases hA : E.AnalysisFromPlan p r with
  | error e =>
    rw [analyse_error E fl p r w e hA] at h
    simpa [logln] using h
  | ok a =>
    rw [analyse_ok E fl p r w a hA] at h
    simp only [emit_events, List.mem_append] at h
    rcases h with ((h | h) | h) | h
    · simpa [logln] using h
    · split at h <;> simp at h
    · simp at h
    · have := analyse_tail_cases E fl a w _ h
      simp at this

theorem analyse_moves_mem (E : Env S) (fl : Flags) (p : S.Plan) (r : List S.Rule) (w : S.World)
    (a : S.Analysis)
    (h : .movesFromAnalysis a ∈ (analyse E fl p r w).events) :
    E.AnalysisFromPlan p r = .ok a := by
  cases hA : E.AnalysisFromPlan p r with
  | error e =>
    rw [analyse_error E fl p r w e hA] at h
    simp [logln] at h
  | ok a1 =>
    rw [analyse_ok E fl p r w a1 hA] at h
    simp only [emit_events, List.mem_append] at h
    rcases h with ((h | h) | h) | h
    · simp [logln] at h
    · split at h <;> simp at h
    · simp at h; rw [h]
    · have := analyse_tail_cases E fl a1 w _ h
      simp at this

/-- An execution in which some call uses an analysis has the second shape. -/
theorem run_shape_of_mem (E : Env S) (fl : Flags) (w : S.World) (e : Event S)
    (he : e ∈ (run E fl w).events) (hu : e.usesAnalysis = true) :
    ∃ pre post plan rules w1,
      (run E fl w).events = pre ++ (analyse E fl plan rules w1).events ++ post ∧
      (run E fl w).err = (analyse E fl plan rules w1).err ∧
      (∀ e ∈ pre, e.usesAnalysis = false ∧ e.toStdout = false ∧ e.printsDone = false) ∧
      (∀ e ∈ post, e.usesAnalysis = false ∧ e.toStdout = false ∧ e.printsDone = false) ∧
      fl.printVersion = false ∧
      (fl.outputFormat = "blocks" ∨ fl.outputFormat = "commands") ∧
      e ∈ (analyse E fl plan rules w1).events ∧
      (post = [] ∨ ∃ name, post = [.remove name]) := by
  rcases run_shape E fl w with h | ⟨pre, post, plan, rules, w1, h1, h2, h3, h4, h5, h6, h7⟩
  · rw [h e he] at hu; cases hu
  · refine ⟨pre, post, plan, rules, w1, h1, h2, h3, h4, h5, h6, ?_, h7⟩
    rw [h1, List.mem_append, List.mem_append] at he
    rcases he with (he | he) | he
    · rw [(h3 e he).1] at hu; cases hu
    · exact he
    · rw [(h4 e he).1] at hu; cases hu

theorem usesAnalysis_false (e : Event S) (h : e.usesAnalysis = false) :
    e.isAnalysisFromPlan = false ∧ e.isMovesFromAnalysis = false ∧ e.printsAnalysis = false ∧
    e.printsMoves = false ∧ e.writesMoves = false ∧ e.isAppendMoves = false ∧
    e.isWriteCommands = false := by
  simp only [Event.usesAnalysis, Event.writesMoves, Bool.or_eq_false_iff] at h
  simp only [Event.writesMoves, Bool.or_eq_false_iff]
  tauto

theorem filter_writesMoves_quiet (l : List (Event S))
    (h : ∀ e ∈ l, e.usesAnalysis = false ∧ e.toStdout = false ∧ e.printsDone = false) :
    l.filter Event.writesMoves = [] := by
  rw [List.filter_eq_nil_iff]
  intro e he
  simp [(usesAnalysis_false e (h e he).1).2.2.2.2.1]

theorem analyse_head_classes (p : S.Plan) (r : List S.Rule) (b : Bool) (a : S.Analysis) :
    ∀ e ∈ ([logln "Analysing plan...", .analysisFromPlan p r] ++
        (if b then [.print .stderr (.analysis a)] else []) ++
        [.movesFromAnalysis a] : List (Event S)),
      e.writesMoves = false ∧ e.toStdout = false ∧ e.printsDone = false ∧
        e.printsMoves = false := by
  intro e he
  have h : e = logln "Analysing plan..." ∨ e = .analysisFromPlan p r ∨
      e = .print .stderr (.analysis a) ∨ e = .movesFromAnalysis a := by
    cases b <;> simp at he <;> tauto
  rcases h with h | h | h | h <;> subst h <;> simp [logln, Event.writesMoves]

/-- When the format is neither "blocks" nor "commands", no call is made
after the first switch. -/
theorem run_rejected (E : Env S) (fl : Flags) (w : S.World)
    (hfmt : ¬ (fl.outputFormat = "blocks" ∨ fl.outputFormat = "commands")) :
    ∀ e ∈ (run E fl w).events, e.beforeCheck = true := by
  have hnc : ∀ e ∈ (if fl.noColor then [Event.setNoColor] else [] : List (Event S)),
      e.beforeCheck = true := by
    intro e he
    split at he
    · simp at he; subst he; rfl
    · simp at he
  by_cases hpv : fl.printVersion = true
  · intro e he
    simp only [run, hpv, if_true, emit_events, List.mem_append] at he
    rcases he with he | he
    · exact hnc e he
    · simp at he; subst he; rfl
  · have hpv : fl.printVersion = false := by simpa using hpv
    cases htf : E.NewTerraform "." fl.terraformBin w with
    | mk r1 w1 =>
      cases r1 with
      | error err =>
        intro e he
        simp only [run, hpv, htf, emit_events, List.mem_append] at he
        rcases he with he | he
        · exact hnc e he
        · simp at he; subst he; rfl
      | ok tf =>
        cases hver : E.Version tf w1 with
        | mk r2 w2 =>
          cases r2 with
          | error err =>
            intro e he
            simp only [run, hpv, htf, hver, emit_events, List.mem_append] at he
            rcases he with he | he
            · exact hnc e he
            · simp at he
              rcases he with he | he <;> subst he <;> rfl
          | ok v =>
            have hfmt2 : ¬ (fl.outputFormat = "commands" ∨
                (fl.outputFormat = "blocks" ∧ GreaterThanOrEqual E v E.v1_1 = true)) := by
              intro h
              rcases h with h | h
              · exact hfmt (Or.inr h)
              · exact hfmt (Or.inl h.1)
            rw [run_stop E fl w tf w1 v w2 hpv htf hver hfmt2]
            intro e he
            simp only [emit_events, List.append_nil] at he
            unfold startEvents at he
            rw [List.mem_append] at he
            rcases he with he | he
            · exact hnc e he
            · simp at he
              rcases he with he | he <;> subst he <;> rfl

theorem beforeCheck_classes (e : Event S) (h : e.beforeCheck = true) :
    e.isParseRule = false ∧ e.isInit = false ∧ e.isCreateTemp = false ∧ e.isPlan = false ∧
    e.isShowPlanFile = false ∧ e.isReadFile = false ∧ e.isUnmarshal = false ∧
    e.usesAnalysis = false := by
  cases e with
  | print d t =>
    cases d <;> cases t <;>
      first
        | (simp [Event.beforeCheck] at h; done)
        | simp [Event.usesAnalysis, Event.writesMoves]
  | _ =>
    first
      | (simp [Event.beforeCheck] at h; done)
      | simp [Event.usesAnalysis, Event.writesMoves]

theorem parseRules_error (E : Env S) (raws : List String) (acc : List S.Rule) (err : GoError S)
    (h : (parseRules E raws acc).1 = .error err) :
    ∃ raw e, err = .errorf "invalid rule passed with -ignore flag %q: %w" [.str raw, .err e] := by
  induction raws generalizing acc with
  | nil => simp [parseRules] at h
  | cons raw rest ih =>
    unfold parseRules at h
    split at h
    · rename_i e _
      simp at h
      exact ⟨raw, e, h.symm⟩
    · exact ih _ h

theorem writeMoves_err (E : Env S) (fl : Flags) (moves : List S.Move) (w : S.World)
    (hfmt : fl.outputFormat = "blocks" ∨ fl.outputFormat = "commands") (args : List (Arg S)) :
    (writeMoves E fl moves w).err ≠ some (.errorf "unknown output format %q" args) := by
  unfold writeMoves
  rcases hfmt with hb | hc
  · simp only [hb, if_true]
    split <;> simp
  · have hb : fl.outputFormat ≠ "blocks" := by rw [hc]; decide
    simp [hb, hc]

theorem analyse_err (E : Env S) (fl : Flags) (p : S.Plan) (r : List S.Rule) (w : S.World)
    (hfmt : fl.outputFormat = "blocks" ∨ fl.outputFormat = "commands") (args : List (Arg S)) :
    (analyse E fl p r w).err ≠ some (.errorf "unknown output format %q" args) := by
  cases hA : E.AnalysisFromPlan p r with
  | error e => rw [analyse_error E fl p r w e hA]; simp
  | ok a =>
    rw [analyse_ok E fl p r w a hA]
    simp only [emit_err]
    split
    · simp
    · split
      · simp
      · exact writeMoves_err E fl _ w hfmt args

theorem obtainPlan_err (E : Env S) (fl : Flags) (tf : S.Terraform) (rules : List S.Rule)
    (w : S.World)
    (hfmt : fl.outputFormat = "blocks" ∨ fl.outputFormat = "commands") (args : List (Arg S)) :
    (obtainPlan E fl tf rules w).err ≠ some (.errorf "unknown output format %q" args) := by
  unfold obtainPlan
  split
  · split
    · simp
    · split
      · simp
      · split
        · simp
        · split
          · simp
          · simp only [emit_err, deferRemove_err]
            exact analyse_err E fl _ _ _ hfmt args
  · split
    · simp
    · split
      · simp
      · simp only [emit_err]
        exact analyse_err E fl _ _ _ hfmt args

theorem afterCheck_err (E : Env S) (fl : Flags) (tf : S.Terraform) (w : S.World)
    (hfmt : fl.outputFormat = "blocks" ∨ fl.outputFormat = "commands") (args : List (Arg S)) :
    (afterCheck E fl tf w).err ≠ some (.errorf "unknown output format %q" args) := by
  unfold afterCheck
  split
  · rename_i err h
    obtain ⟨raw, e, he⟩ := parseRules_error E _ _ err h
    subst he
    simp
  · simp only [emit_err]
    exact obtainPlan_err E fl tf _ w hfmt args

/-- When the format is "blocks" or "commands", `run` does not return the
error `unknown output format`. -/
theorem run_err_accepted (E : Env S) (fl : Flags) (w : S.World)
    (hfmt : fl.outputFormat = "blocks" ∨ fl.outputFormat = "commands") (args : List (Arg S)) :
    (run E fl w).err ≠ some (.errorf "unknown output format %q" args) := by
  unfold run
  simp only [emit_err]
  split
  · simp
  · split
    · simp
    · split
      · simp
      · simp only [emit_err]
        split
        · split
          · simp
          · exact afterCheck_err E fl _ _ hfmt args
        · split
          · exact afterCheck_err E fl _ _ hfmt args
          · rename_i hb hc
            rcases hfmt with h | h
            · exact absurd h hb
            · exact absurd h hc

theorem planStep_false_of_init (e : Event S) (h1 : e.isInit = false) (h2 : e.isPlan = false)
    (h3 : e.isShowPlanFile = false) (h4 : e.isAnalysisFromPlan = false) :
    e.planStep = false := by
  rw [Event.planStep, h1, h2, h3, h4]; rfl

theorem writeMoves_classes (E : Env S) (fl : Flags) (moves : List S.Move) (w : S.World) :
    ∀ e ∈ (writeMoves E fl moves w).events,
      e.isInit = false ∧ e.isCreateTemp = false ∧ e.isPlan = false ∧
      e.isShowPlanFile = false ∧ e.isReadFile = false ∧ e.isUnmarshal = false ∧
      e.isAnalysisFromPlan = false := by
  intro e he
  unfold writeMoves at he
  split at he
  · split at he
    · simp at he; subst he; simp
    · simp at he; rcases he with he | he <;> subst he <;> simp
  · split at he
    · simp at he; rcases he with he | he <;> subst he <;> simp
    · simp at he

/-- No call of `analyse` obtains a plan, and its only call of
`AnalysisFromPlan` is the one on its arguments. -/
theorem analyse_classes (E : Env S) (fl : Flags) (p : S.Plan) (r : List S.Rule) (w : S.World) :
    ∀ e ∈ (analyse E fl p r w).events,
      e.isInit = false ∧ e.isCreateTemp = false ∧ e.isPlan = false ∧
      e.isShowPlanFile = false ∧ e.isReadFile = false ∧ e.isUnmarshal = false := by
  intro e he
  cases hA : E.AnalysisFromPlan p r with
  | error err =>
    rw [analyse_error E fl p r w err hA] at he
    simp [logln] at he
    rcases he with he | he <;> subst he <;> simp
  | ok a =>
    rw [analyse_ok E fl p r w a hA] at he
    simp only [emit_events, List.mem_append] at he
    rcases he with ((he | he) | he) | he
    · simp [logln] at he
      rcases he with he | he <;> subst he <;> simp
    · split at he
      · simp at he; subst he; simp
      · simp at he
    · simp at he; subst he; simp
    · split at he
      · simp at he; subst he; simp
      · split at he
        · simp at he; subst he; simp
        · have := writeMoves_classes E fl _ w e he
          exact ⟨this.1, this.2.1, this.2.2.1, this.2.2.2.1, this.2.2.2.2.1, this.2.2.2.2.2.1⟩

theorem analyse_planStep (E : Env S) (fl : Flags) (p : S.Plan) (r : List S.Rule) (w : S.World) :
    (analyse E fl p r w).events.filter Event.planStep = [.analysisFromPlan p r] := by
  cases hA : E.AnalysisFromPlan p r with
  | error err =>
    rw [analyse_error E fl p r w err hA]
    simp [logln, Event.planStep, List.filter]
  | ok a =>
    rw [analyse_ok E fl p r w a hA]
    have htail : (if (E.MovesFromAnalysis a).length = 0 then
          (⟨none, [.print .stderr (.done "Found no moves to make")], w⟩ : Outcome S)
        else if fl.dryRun then
          ⟨none, [.print .stderr (.moves (E.MovesFromAnalysis a))], w⟩
        else
          writeMoves E fl (E.MovesFromAnalysis a) w).events.filter Event.planStep = [] := by
      rw [List.filter_eq_nil_iff]
      intro e he
      split at he
      · simp at he; subst he; simp [Event.planStep]
      · split at he
        · simp at he; subst he; simp [Event.planStep]
        · have := writeMoves_classes E fl _ w e he
          simp [planStep_false_of_init e this.1 this.2.2.1 this.2.2.2.1 this.2.2.2.2.2.2]
    simp only [emit_events, List.filter_append, htail]
    cases fl.showAnalysis <;> simp [logln, Event.planStep, List.filter]

/-- With `-plan-file` set, the code from line 84 on reads that file and
decodes it, and does not run terraform. -/
theorem obtainPlan_file (E : Env S) (fl : Flags) (tf : S.Terraform) (rules : List S.Rule)
    (w : S.World) (hj : fl.jsonPlanFile ≠ "") :
    (∀ ev ∈ (obtainPlan E fl tf rules w).events,
      ev.isInit = false ∧ ev.isCreateTemp = false ∧ ev.isPlan = false ∧
      ev.isShowPlanFile = false) ∧
    (∀ name r, .readFile name r ∈ (obtainPlan E fl tf rules w).events →
      name = fl.jsonPlanFile) ∧
    (∀ p rs, .analysisFromPlan p rs ∈ (obtainPlan E fl tf rules w).events →
      ∃ data, .readFile fl.jsonPlanFile (.ok data) ∈ (obtainPlan E fl tf rules w).events ∧
        E.Unmarshal data = .ok p) ∧
    (∀ name e, .readFile name (.error e) ∈ (obtainPlan E fl tf rules w).events →
      (obtainPlan E fl tf rules w).err = some (.ext e)) ∧
    (∀ data e, .unmarshal data ∈ (obtainPlan E fl tf rules w).events →
      E.Unmarshal data = .error e → (obtainPlan E fl tf rules w).err = some (.ext e)) := by
  cases hR : E.ReadFile fl.jsonPlanFile w with
  | mk r w1 =>
    cases r with
    | error err =>
      have ho : obtainPlan E fl tf rules w =
          ⟨some (.ext err), [.readFile fl.jsonPlanFile (.error err)], w1⟩ := by
        simp [obtainPlan, hj, hR]
      rw [ho]
      simp
    | ok data =>
      cases hU : E.Unmarshal data with
      | error err =>
        have ho : obtainPlan E fl tf rules w =
            ⟨some (.ext err), [.readFile fl.jsonPlanFile (.ok data), .unmarshal data], w1⟩ := by
          simp [obtainPlan, hj, hR, hU, emit]
        rw [ho]
        simp
        intro d e hd he
        subst hd
        rw [hU] at he
        cases he
        rfl
      | ok p =>
        have ho : obtainPlan E fl tf rules w =
            emit [.readFile fl.jsonPlanFile (.ok data), .unmarshal data]
              (analyse E fl p rules w1) := by
          simp [obtainPlan, hj, hR, hU]
        rw [ho]
        have hcl := analyse_classes E fl p rules w1
        refine ⟨?_, ?_, ?_, ?_, ?_⟩
        · intro ev hev
          simp only [emit_events, List.mem_append] at hev
          rcases hev with hev | hev
          · simp at hev
            rcases hev with hev | hev <;> subst hev <;> simp
          · have := hcl ev hev
            exact ⟨this.1, this.2.1, this.2.2.1, this.2.2.2.1⟩
        · intro name r hev
          simp only [emit_events, List.mem_append] at hev
          rcases hev with hev | hev
          · simp at hev; exact hev.1
          · have := (hcl _ hev).2.2.2.2.1
            simp at this
        · intro p1 rs hev
          simp only [emit_events, List.mem_append] at hev
          rcases hev with hev | hev
          · simp at hev
          · obtain ⟨hp, _⟩ := analyse_call_mem E fl p rules w1 p1 rs hev
            subst hp
            exact ⟨data, by simp, hU⟩
        · intro name e hev
          simp only [emit_events, List.mem_append] at hev
          rcases hev with hev | hev
          · simp at hev
          · have := (hcl _ hev).2.2.2.2.1
            simp at this
        · intro d e hev hd
          simp only [emit_events, List.mem_append] at hev
          rcases hev with hev | hev
          · simp at hev
            subst hev
            rw [hU] at hd
            cases hd
          · have := (hcl _ hev).2.2.2.2.2
            simp at this

/-- With `-plan-file` empty, the code from line 84 on runs terraform init,
then terraform plan once, then shows the plan file it wrote, and reads no
other file. -/
theorem obtainPlan_terraform (E : Env S) (fl : Flags) (tf : S.Terraform) (rules : List S.Rule)
    (w : S.World) (hj : fl.jsonPlanFile = "") :
    (∀ ev ∈ (obtainPlan E fl tf rules w).events,
      ev.isReadFile = false ∧ ev.isUnmarshal = false) ∧
    ((obtainPlan E fl tf rules w).events.filter Event.isPlan).length ≤ 1 ∧
    (∀ p rs, .analysisFromPlan p rs ∈ (obtainPlan E fl tf rules w).events →
      ∃ name b,
        (obtainPlan E fl tf rules w).events.filter Event.planStep =
          [.tfInit none, .tfPlan name (.ok b), .showPlanFile name (.ok p),
           .analysisFromPlan p rs]) := by
  cases hI : E.Init tf w with
  | mk r0 w1 =>
    cases r0 with
    | some err =>
      have ho : obtainPlan E fl tf rules w =
          ⟨some (.ext err), [logln "Running \"terraform init\"...", .tfInit (some err)], w1⟩ := by
        simp [obtainPlan, hj, hI]
      rw [ho]
      simp [logln, List.filter]
    | none =>
      cases hC : E.CreateTemp "" "tfautomv.*.plan" w1 with
      | mk r1 w2 =>
        cases r1 with
        | error err =>
          have ho : obtainPlan E fl tf rules w =
              ⟨some (.ext err), [logln "Running \"terraform init\"...", .tfInit none,
                logln "Running \"terraform plan\"...",
                .createTemp "" "tfautomv.*.plan" (.error err)], w2⟩ := by
            simp [obtainPlan, hj, hI, hC, emit]
          rw [ho]
          simp [logln, List.filter]
        | ok name =>
          cases hP : E.Plan tf name w2 with
          | mk r2 w3 =>
            cases r2 with
            | error err =>
              have ho : (obtainPlan E fl tf rules w).events =
                  [logln "Running \"terraform init\"...", .tfInit none,
                    logln "Running \"terraform plan\"...",
                    .createTemp "" "tfautomv.*.plan" (.ok name),
                    .tfPlan name (.error err), .remove name] := by
                simp [obtainPlan, hj, hI, hC, hP]
              rw [ho]
              simp [logln, List.filter]
            | ok b =>
              cases hS : E.ShowPlanFile tf name w3 with
              | mk r3 w4 =>
                cases r3 with
                | error err =>
                  have ho : (obtainPlan E fl tf rules w).events =
                      [logln "Running \"terraform init\"...", .tfInit none,
                        logln "Running \"terraform plan\"...",
                        .createTemp "" "tfautomv.*.plan" (.ok name),
                        .tfPlan name (.ok b), .showPlanFile name (.error err),
                        .remove name] := by
                    simp [obtainPlan, hj, hI, hC, hP, hS]
                  rw [ho]
                  simp [logln, List.filter]
                | ok p =>
                  have ho : (obtainPlan E fl tf rules w).events =
                      [logln "Running \"terraform init\"...", .tfInit none,
                        logln "Running \"terraform plan\"...",
                        .createTemp "" "tfautomv.*.plan" (.ok name),
                        .tfPlan name (.ok b), .showPlanFile name (.ok p)] ++
                      (analyse E fl p rules w4).events ++ [.remove name] := by
                    simp [obtainPlan, hj, hI, hC, hP, hS]
                  rw [ho]
                  have hcl := analyse_classes E fl p rules w4
                  have hfp : (analyse E fl p rules w4).events.filter Event.isPlan = [] := by
                    rw [List.filter_eq_nil_iff]
                    intro e he
                    rw [(hcl e he).2.2.1]
                    simp
                  refine ⟨?_, ?_, ?_⟩
                  · intro ev hev
                    rw [List.mem_append, List.mem_append] at hev
                    rcases hev with (hev | hev) | hev
                    · simp [logln] at hev
                      rcases hev with hev | hev | hev | hev | hev | hev <;> subst hev <;> simp
                    · exact (hcl ev hev).2.2.2.2
                    · simp at hev; subst hev; simp
                  · simp only [List.filter_append, hfp]
                    simp [logln, List.filter]
                  · intro p1 rs hev
                    rw [List.mem_append, List.mem_append] at hev
                    rcases hev with (hev | hev) | hev
                    · simp [logln] at hev
                    · obtain ⟨hp, hr⟩ := analyse_call_mem E fl p rules w4 p1 rs hev
                      subst hp; subst hr
                      refine ⟨name, b, ?_⟩
                      simp only [List.filter_append, analyse_planStep]
                      simp [logln, Event.planStep, List.filter]
                    · simp at hev

theorem early_classes (e : Event S) (h : e.beforeCheck = true ∨ e.isParseRule = true) :
    e.isInit = false ∧ e.isCreateTemp = false ∧ e.isPlan = false ∧
    e.isShowPlanFile = false ∧ e.isReadFile = false ∧ e.isUnmarshal = false ∧
    e.usesAnalysis = false := by
  rcases h with h | h
  · exact (beforeCheck_classes e h).2
  · cases e <;> simp at h
    simp [Event.usesAnalysis, Event.writesMoves]

/-- The shape of an execution of `run`, seen from line 84: either it stops
before, or its calls are those of the code from line 84 on, after calls made
up to the first switch and calls of `ParseRule`. -/
theorem run_obtainPlan_shape (E : Env S) (fl : Flags) (w : S.World) :
    (∀ e ∈ (run E fl w).events, e.beforeCheck = true ∨ e.isParseRule = true) ∨
    (∃ pre tf rules w1, run E fl w = emit pre (obtainPlan E fl tf rules w1) ∧
      ∀ e ∈ pre, e.beforeCheck = true ∨ e.isParseRule = true) := by
  have hnc : ∀ e ∈ (if fl.noColor then [Event.setNoColor] else [] : List (Event S)),
      e.beforeCheck = true ∨ e.isParseRule = true := by
    intro e he
    split at he
    · simp at he; subst he; exact Or.inl rfl
    · simp at he
  by_cases hpv : fl.printVersion = true
  · left
    intro e he
    simp only [run, hpv, if_true, emit_events, List.mem_append] at he
    rcases he with he | he
    · exact hnc e he
    · simp at he; subst he; exact Or.inl rfl
  · have hpv : fl.printVersion = false := by simpa using hpv
    cases htf : E.NewTerraform "." fl.terraformBin w with
    | mk r1 w1 =>
      cases r1 with
      | error err =>
        left
        intro e he
        simp only [run, hpv, htf, emit_events, List.mem_append] at he
        rcases he with he | he
        · exact hnc e he
        · simp at he; subst he; exact Or.inl rfl
      | ok tf =>
        cases hver : E.Version tf w1 with
        | mk r2 w2 =>
          cases r2 with
          | error err =>
            left
            intro e he
            simp only [run, hpv, htf, hver, emit_events, List.mem_append] at he
            rcases he with he | he
            · exact hnc e he
            · simp at he
              rcases he with he | he <;> subst he <;> exact Or.inl rfl
          | ok v =>
            have hst : ∀ e ∈ (startEvents fl tf v : List (Event S)),
                e.beforeCheck = true ∨ e.isParseRule = true := by
              intro e he
              unfold startEvents at he
              rw [List.mem_append] at he
              rcases he with he | he
              · exact hnc e he
              · simp at he
                rcases he with he | he <;> subst he <;> exact Or.inl rfl
            have hpr : ∀ e ∈ (parseRules E fl.ignoreRules []).2,
                e.beforeCheck = true ∨ e.isParseRule = true := by
              intro e he
              obtain ⟨raw, hraw⟩ := parseRules_events_mem E _ _ e he
              subst hraw
              exact Or.inr rfl
            by_cases hfmt : fl.outputFormat = "commands" ∨
                (fl.outputFormat = "blocks" ∧ GreaterThanOrEqual E v E.v1_1 = true)
            · rw [run_pass E fl w tf w1 v w2 hpv htf hver hfmt]
              cases hpar : (parseRules E fl.ignoreRules []).1 with
              | error err =>
                left
                intro e he
                simp only [afterCheck, hpar, emit_events, List.mem_append] at he
                rcases he with he | he | he
                · exact hst e he
                · exact hpr e he
                · simp at he
              | ok rules =>
                right
                refine ⟨startEvents fl tf v ++ (parseRules E fl.ignoreRules []).2, tf, rules,
                  w2, ?_, ?_⟩
                · simp [afterCheck, hpar, emit]
                · intro e he
                  rw [List.mem_append] at he
                  rcases he with he | he
                  · exact hst e he
                  · exact hpr e he
            · left
              rw [run_stop E fl w tf w1 v w2 hpv htf hver hfmt]
              intro e he
              simp at he
              exact hst e he

theorem aboutMoves_false_of_usesAnalysis (e : Event S) (h : e.usesAnalysis = false) :
    e.aboutMoves = false := by
  have := usesAnalysis_false e h
  rw [Event.aboutMoves, this.2.1, this.2.2.2.1, this.2.2.2.2.1]; rfl

/-- The calls of an execution split in two: first the calls up to the report
of the analysis, none of which concerns moves, then the calls from
`MovesFromAnalysis` on, none of which prints the report. -/
theorem run_split (E : Env S) (fl : Flags) (w : S.World) :
    ∃ X Y, (run E fl w).events = X ++ Y ∧ (∀ x ∈ X, x.aboutMoves = false) ∧
      (∀ y ∈ Y, y.printsAnalysis = false) := by
  rcases run_shape E fl w with h | ⟨pre, post, plan, rules, w1, h1, _, h3, h4, _, _⟩
  · exact ⟨(run E fl w).events, [], by simp,
      fun x hx => aboutMoves_false_of_usesAnalysis x (h x hx), by simp⟩
  · have hpre : ∀ x ∈ pre, x.aboutMoves = false :=
      fun x hx => aboutMoves_false_of_usesAnalysis x (h3 x hx).1
    have hpost : ∀ y ∈ post, y.printsAnalysis = false :=
      fun y hy => (usesAnalysis_false y (h4 y hy).1).2.2.1
    cases hA : E.AnalysisFromPlan plan rules with
    | error err =>
      rw [analyse_error E fl plan rules w1 err hA] at h1
      refine ⟨pre ++ [logln "Analysing plan...", .analysisFromPlan plan rules], post, ?_, ?_,
        hpost⟩
      · rw [h1]
      · intro x hx
        rw [List.mem_append] at hx
        rcases hx with hx | hx
        · exact hpre x hx
        · simp [logln] at hx
          rcases hx with hx | hx <;> subst hx <;> simp [Event.aboutMoves, Event.writesMoves]
    | ok a =>
      rw [analyse_ok E fl plan rules w1 a hA] at h1
      simp only [emit_events] at h1
      refine ⟨pre ++ ([logln "Analysing plan...", .analysisFromPlan plan rules] ++
          (if fl.showAnalysis then [.print .stderr (.analysis a)] else [])),
        [.movesFromAnalysis a] ++ (if (E.MovesFromAnalysis a).length = 0 then
            (⟨none, [.print .stderr (.done "Found no moves to make")], w1⟩ : Outcome S)
          else if fl.dryRun then
            ⟨none, [.print .stderr (.moves (E.MovesFromAnalysis a))], w1⟩
          else
            writeMoves E fl (E.MovesFromAnalysis a) w1).events ++ post, ?_, ?_, ?_⟩
      · rw [h1]; simp only [List.append_assoc]
      · intro x hx
        rw [List.mem_append, List.mem_append] at hx
        rcases hx with hx | hx | hx
        · exact hpre x hx
        · simp [logln] at hx
          rcases hx with hx | hx <;> subst hx <;> simp [Event.aboutMoves, Event.writesMoves]
        · split at hx
          · simp at hx; subst hx; simp [Event.aboutMoves, Event.writesMoves]
          · simp at hx
      · intro y hy
        rw [List.mem_append, List.mem_append] at hy
        rcases hy with (hy | hy) | hy
        · simp at hy; subst hy; simp
        · exact (analyse_tail_cases E fl a w1 y hy).2.2
        · exact hpost y hy

theorem hush_emit (evs : List (Event S)) (o : Outcome S) :
    hush (emit evs o) = emit (evs.filter (fun e => !e.printsAnalysis)) (hush o) := by
  simp [hush, emit]

theorem hush_deferRemove (E : Env S) (name : String) (o : Outcome S) :
    hush (deferRemove E name o) = deferRemove E name (hush o) := by
  simp [hush, deferRemove]

theorem hush_self (o : Outcome S) (h : ∀ e ∈ o.events, e.printsAnalysis = false) :
    hush o = o := by
  have : o.events.filter (fun e => !e.printsAnalysis) = o.events := by
    rw [List.filter_eq_self]
    intro e he
    rw [h e he]; rfl
  unfold hush
  rw [this]

theorem writeMoves_showAnalysis (E : Env S) (fl : Flags) (b : Bool) (moves : List S.Move)
    (w : S.World) :
    writeMoves E { fl with showAnalysis := b } moves w = writeMoves E fl moves w := rfl

theorem hush_analyse (E : Env S) (fl : Flags) (p : S.Plan) (r : List S.Rule) (w : S.World) :
    hush (analyse E { fl with showAnalysis := true } p r w) =
      analyse E { fl with showAnalysis := false } p r w := by
  cases hA : E.AnalysisFromPlan p r with
  | error err =>
    rw [analyse_error E _ p r w err hA, analyse_error E _ p r w err hA]
    simp [hush, logln]
  | ok a =>
    rw [analyse_ok E _ p r w a hA, analyse_ok E _ p r w a hA, hush_emit]
    simp only [writeMoves_showAnalysis]
    rw [hush_self]
    · simp [logln]
    · intro e he
      exact (analyse_tail_cases E fl a w e he).2.2

theorem hush_obtainPlan (E : Env S) (fl : Flags) (tf : S.Terraform) (rules : List S.Rule)
    (w : S.World) :
    hush (obtainPlan E { fl with showAnalysis := true } tf rules w) =
      obtainPlan E { fl with showAnalysis := false } tf rules w := by
  unfold obtainPlan
  simp only []
  split
  · split
    · simp [hush, emit, deferRemove, logln]
    · split
      · simp [hush, emit, deferRemove, logln]
      · rw [hush_emit, hush_emit, hush_deferRemove]
        split
        · simp [hush, emit, deferRemove, logln]
        · split
          · simp [hush, emit, deferRemove, logln]
          · rw [hush_emit, hush_emit, hush_analyse]
            simp [logln]
  · split
    · simp [hush]
    · split
      · simp [hush, emit]
      · rw [hush_emit, hush_analyse]
        simp

theorem hush_afterCheck (E : Env S) (fl : Flags) (tf : S.Terraform) (w : S.World) :
    hush (afterCheck E { fl with showAnalysis := true } tf w) =
      afterCheck E { fl with showAnalysis := false } tf w := by
  have hp : (parseRules E fl.ignoreRules []).2.filter (fun e => !e.printsAnalysis) =
      (parseRules E fl.ignoreRules []).2 := by
    rw [List.filter_eq_self]
    intro e he
    obtain ⟨raw, hraw⟩ := parseRules_events_mem E _ _ e he
    subst hraw
    rfl
  unfold afterCheck
  simp only []
  rw [hush_emit, hp]
  split
  · simp [hush]
  · rw [hush_obtainPlan]

theorem hush_run (E : Env S) (fl : Flags) (w : S.World) :
    hush (run E { fl with showAnalysis := true } w) =
      run E { fl with showAnalysis := false } w := by
  unfold run
  simp only []
  rw [hush_emit]
  have hnc : (if fl.noColor then [Event.setNoColor] else [] : List (Event S)).filter
      (fun e => !e.printsAnalysis) = (if fl.noColor then [Event.setNoColor] else []) := by
    split <;> simp
  rw [hnc]
  congr 1
  split
  · simp [hush]
  · split
    · simp [hush]
    · rw [hush_emit]
      split
      · simp [hush]
      · rw [hush_emit]
        split
        · split
          · simp [hush]
          · rw [hush_afterCheck]; simp
        · split
          · rw [hush_afterCheck]; simp
          · simp [hush]

theorem analyse_print_mem (E : Env S) (fl : Flags) (p : S.Plan) (r : List S.Rule) (w : S.World)
    (e : Event S) (he : e ∈ (analyse E fl p r w).events) (hp : e.printsAnalysis = true) :
    fl.showAnalysis = true ∧
      ∃ a, E.AnalysisFromPlan p r = .ok a ∧ e = .print .stderr (.analysis a) := by
  cases hA : E.AnalysisFromPlan p r with
  | error err =>
    rw [analyse_error E fl p r w err hA] at he
    simp [logln] at he
    rcases he with he | he <;> subst he <;> simp at hp
  | ok a =>
    rw [analyse_ok E fl p r w a hA] at he
    simp only [emit_events, List.mem_append] at he
    rcases he with ((he | he) | he) | he
    · simp [logln] at he
      rcases he with he | he <;> subst he <;> simp at hp
    · split at he
      · rename_i hs
        simp at he
        exact ⟨hs, a, rfl, he⟩
      · simp at he
    · simp at he; subst he; simp at hp
    · rw [(analyse_tail_cases E fl a w e he).2.2] at hp
      cases hp

/-- The writes of moves seen in the trace alone: in an execution without
`-dry-run` in which `MovesFromAnalysis` is called and returns moves, exactly
one call writes them, chosen by the format. -/
theorem moves_sink_trace (E : Env S) (fl : Flags) (w : S.World) (a : S.Analysis)
    (hdry : fl.dryRun = false)
    (hcall : .movesFromAnalysis a ∈ (run E fl w).events)
    (hne : E.MovesFromAnalysis a ≠ []) :
    (fl.outputFormat = "blocks" ∨ fl.outputFormat = "commands") ∧
    (fl.outputFormat = "blocks" →
      ∃ r : Option S.Err,
        (run E fl w).events.filter Event.writesMoves =
          [.appendMovesToFile (E.MovesFromAnalysis a) "moves.tf" r] ∧
        (∀ ev ∈ (run E fl w).events, ev.toStdout = false) ∧
        (run E fl w).err = r.map .ext ∧
        (r = none → .print .stderr (.done ("Added " ++ toString (E.MovesFromAnalysis a).length ++
          " moved blocks to \"moves.tf\".")) ∈ (run E fl w).events) ∧
        (∀ d msg, .print d (.done msg) ∈ (run E fl w).events →
          msg = "Added " ++ toString (E.MovesFromAnalysis a).length ++
            " moved blocks to \"moves.tf\".")) ∧
    (fl.outputFormat = "commands" →
      (run E fl w).events.filter Event.writesMoves =
        [.writeMovesShellCommands (E.MovesFromAnalysis a) .stdout] ∧
      (∀ ev ∈ (run E fl w).events, ev.isAppendMoves = false) ∧
      (run E fl w).err = none ∧
      .print .stderr (.done ("Wrote " ++ toString (E.MovesFromAnalysis a).length ++
        " commands to standard output.")) ∈ (run E fl w).events ∧
      (∀ d msg, .print d (.done msg) ∈ (run E fl w).events →
        msg = "Wrote " ++ toString (E.MovesFromAnalysis a).length ++
          " commands to standard output.") ∧
      (∃ pre post, (run E fl w).events =
          pre ++ [.movesFromAnalysis a,
            .writeMovesShellCommands (E.MovesFromAnalysis a) .stdout,
            .print .stderr (.done ("Wrote " ++ toString (E.MovesFromAnalysis a).length ++
              " commands to standard output."))] ++ post ∧
        (post = [] ∨ ∃ name, post = [.remove name]))) := by
  obtain ⟨pre, post, plan, rs, w1, h1, h2, h3, h4, _, hfmt, hin, hshape⟩ :=
    run_shape_of_mem E fl w _ hcall (by simp [Event.usesAnalysis])
  have hA := analyse_moves_mem E fl plan rs w1 a hin
  have hlen : (E.MovesFromAnalysis a).length ≠ 0 := by
    simpa [List.length_eq_zero] using hne
  have hpre := filter_writesMoves_quiet pre h3
  have hpost := filter_writesMoves_quiet post h4
  have hhead := analyse_head_classes plan rs fl.showAnalysis a
  have hheadf : ([logln "Analysing plan...", .analysisFromPlan plan rs] ++
        (if fl.showAnalysis then [.print .stderr (.analysis a)] else []) ++
        [.movesFromAnalysis a] : List (Event S)).filter Event.writesMoves = [] := by
    rw [List.filter_eq_nil_iff]
    intro e he
    simp [(hhead e he).1]
  rw [analyse_ok E fl plan rs w1 a hA] at h1 h2
  simp only [hlen, hdry, if_false, emit_events, emit_err, Bool.false_eq_true] at h1 h2
  refine ⟨hfmt, ?_, ?_⟩
  · intro hb
    unfold writeMoves at h1 h2
    simp only [hb, if_true] at h1 h2
    cases hap : E.AppendMovesToFile (E.MovesFromAnalysis a) "moves.tf" w1 with
    | mk r w2 =>
      rw [hap] at h1 h2
      refine ⟨r, ?_, ?_, ?_, ?_, ?_⟩
      · rw [h1]
        simp only [List.filter_append, hpre, hpost, hheadf]
        cases r <;> simp [Event.writesMoves]
      · intro ev hev
        rw [h1, List.mem_append, List.mem_append, List.mem_append] at hev
        rcases hev with (hev | hev | hev) | hev
        · exact (h3 ev hev).2.1
        · exact (hhead ev hev).2.1
        · cases r <;> simp at hev
          · rcases hev with hev | hev <;> subst hev <;> simp
          · subst hev; simp
        · exact (h4 ev hev).2.1
      · rw [h2]; cases r <;> rfl
      · intro hr
        subst hr
        rw [h1]; simp
      · intro d msg hev
        rw [h1, List.mem_append, List.mem_append, List.mem_append] at hev
        rcases hev with (hev | hev | hev) | hev
        · have := (h3 _ hev).2.2; simp at this
        · have := (hhead _ hev).2.2.1; simp at this
        · cases r <;> simp at hev
          exact hev.2
        · have := (h4 _ hev).2.2; simp at this
  · intro hc
    have hb : fl.outputFormat ≠ "blocks" := by rw [hc]; decide
    unfold writeMoves at h1 h2
    simp only [hb, hc, if_true, if_false] at h1 h2
    refine ⟨?_, ?_, h2, ?_, ?_, ?_⟩
    · rw [h1]
      simp only [List.filter_append, hpre, hpost, hheadf]
      simp [Event.writesMoves]
    · intro ev hev
      rw [h1, List.mem_append, List.mem_append, List.mem_append] at hev
      rcases hev with (hev | hev | hev) | hev
      · exact (usesAnalysis_false ev (h3 ev hev).1).2.2.2.2.2.1
      · have := (hhead ev hev).1
        simp only [Event.writesMoves, Bool.or_eq_false_iff] at this
        exact this.1
      · simp at hev
        rcases hev with hev | hev <;> subst hev <;> simp
      · exact (usesAnalysis_false ev (h4 ev hev).1).2.2.2.2.2.1
    · rw [h1]; simp
    · intro d msg hev
      rw [h1, List.mem_append, List.mem_append, List.mem_append] at hev
      rcases hev with (hev | hev | hev) | hev
      · have := (h3 _ hev).2.2; simp at this
      · have := (hhead _ hev).2.2.1; simp at this
      · simp at hev
        exact hev.2
      · have := (h4 _ hev).2.2; simp at this
    · refine ⟨pre ++ ([logln "Analysing plan...", .analysisFromPlan plan rs] ++
        (if fl.showAnalysis then [.print .stderr (.analysis a)] else [])), post, ?_, hshape⟩
      rw [h1]
      simp

/-- The source of the plan seen in the trace alone, in every execution: with
`-plan-file` set no terraform call is made and an analysed plan is the
decoding of the file read; with `-plan-file` empty no file is read and an
analysed plan comes from init, one plan and the show of the file it wrote. -/
theorem plan_source_frame (E : Env S) (fl : Flags) (w : S.World) :
    (fl.jsonPlanFile ≠ "" →
      (∀ ev ∈ (run E fl w).events,
        ev.isInit = false ∧ ev.isCreateTemp = false ∧ ev.isPlan = false ∧
        ev.isShowPlanFile = false) ∧
      (∀ name r, .readFile name r ∈ (run E fl w).events → name = fl.jsonPlanFile) ∧
      (∀ p rs, .analysisFromPlan p rs ∈ (run E fl w).events →
        ∃ data, .readFile fl.jsonPlanFile (.ok data) ∈ (run E fl w).events ∧
          E.Unmarshal data = .ok p) ∧
      (∀ name e, .readFile name (.error e) ∈ (run E fl w).events →
        (run E fl w).err = some (.ext e)) ∧
      (∀ data e, .unmarshal data ∈ (run E fl w).events →
        E.Unmarshal data = .error e → (run E fl w).err = some (.ext e))) ∧
    (fl.jsonPlanFile = "" →
      (∀ ev ∈ (run E fl w).events, ev.isReadFile = false ∧ ev.isUnmarshal = false) ∧
      ((run E fl w).events.filter Event.isPlan).length ≤ 1 ∧
      (∀ p rs, .analysisFromPlan p rs ∈ (run E fl w).events →
        ∃ name b,
          (run E fl w).events.filter Event.planStep =
            [.tfInit none, .tfPlan name (.ok b), .showPlanFile name (.ok p),
             .analysisFromPlan p rs])) := by
  rcases run_obtainPlan_shape E fl w with h | ⟨pre, tf, rules, w1, hrun, hpre⟩
  · have hc := fun e he => early_classes e (h e he)
    refine ⟨fun _ => ⟨?_, ?_, ?_, ?_, ?_⟩, fun _ => ⟨?_, ?_, ?_⟩⟩
    · intro ev hev
      exact ⟨(hc ev hev).1, (hc ev hev).2.1, (hc ev hev).2.2.1, (hc ev hev).2.2.2.1⟩
    · intro name r hev
      have := (hc _ hev).2.2.2.2.1
      simp at this
    · intro p rs hev
      have := (usesAnalysis_false _ (hc _ hev).2.2.2.2.2.2).1
      simp at this
    · intro name e hev
      have := (hc _ hev).2.2.2.2.1
      simp at this
    · intro d e hev
      have := (hc _ hev).2.2.2.2.2.1
      simp at this
    · intro ev hev
      exact ⟨(hc ev hev).2.2.2.2.1, (hc ev hev).2.2.2.2.2.1⟩
    · have : (run E fl w).events.filter Event.isPlan = [] := by
        rw [List.filter_eq_nil_iff]
        intro e he
        rw [(hc e he).2.2.1]
        simp
      simp [this]
    · intro p rs hev
      have := (usesAnalysis_false _ (hc _ hev).2.2.2.2.2.2).1
      simp at this
  · have hc := fun e he => early_classes e (hpre e he)
    rw [hrun]
    simp only [emit_events, emit_err]
    refine ⟨fun hj => ?_, fun hj => ?_⟩
    · obtain ⟨f1, f2, f3, f4, f5⟩ := obtainPlan_file E fl tf rules w1 hj
      refine ⟨?_, ?_, ?_, ?_, ?_⟩
      · intro ev hev
        rw [List.mem_append] at hev
        rcases hev with hev | hev
        · exact ⟨(hc ev hev).1, (hc ev hev).2.1, (hc ev hev).2.2.1, (hc ev hev).2.2.2.1⟩
        · exact f1 ev hev
      · intro name r hev
        rw [List.mem_append] at hev
        rcases hev with hev | hev
        · have := (hc _ hev).2.2.2.2.1
          simp at this
        · exact f2 name r hev
      · intro p rs hev
        rw [List.mem_append] at hev
        rcases hev with hev | hev
        · have := (usesAnalysis_false _ (hc _ hev).2.2.2.2.2.2).1
          simp at this
        · obtain ⟨data, hd1, hd2⟩ := f3 p rs hev
          exact ⟨data, List.mem_append_right _ hd1, hd2⟩
      · intro name e hev
        rw [List.mem_append] at hev
        rcases hev with hev | hev
        · have := (hc _ hev).2.2.2.2.1
          simp at this
        · exact f4 name e hev
      · intro d e hev hd
        rw [List.mem_append] at hev
        rcases hev with hev | hev
        · have := (hc _ hev).2.2.2.2.2.1
          simp at this
        · exact f5 d e hev hd
    · obtain ⟨g1, g2, g3⟩ := obtainPlan_terraform E fl tf rules w1 hj
      have hfp : pre.filter Event.isPlan = [] := by
        rw [List.filter_eq_nil_iff]
        intro e he
        rw [(hc e he).2.2.1]
        simp
      have hfs : pre.filter Event.planStep = [] := by
        rw [List.filter_eq_nil_iff]
        intro e he
        rw [planStep_false_of_init e (hc e he).1 (hc e he).2.2.1 (hc e he).2.2.2.1
          (usesAnalysis_false e (hc e he).2.2.2.2.2.2).1]
        simp
      refine ⟨?_, ?_, ?_⟩
      · intro ev hev
        rw [List.mem_append] at hev
        rcases hev with hev | hev
        · exact ⟨(hc ev hev).2.2.2.2.1, (hc ev hev).2.2.2.2.2.1⟩
        · exact g1 ev hev
      · rw [List.filter_append, hfp]
        exact g2
      · intro p rs hev
        rw [List.mem_append] at hev
        rcases hev with hev | hev
        · have := (usesAnalysis_false _ (hc _ hev).2.2.2.2.2.2).1
          simp at this
        · obtain ⟨name, b, hnb⟩ := g3 p rs hev
          exact ⟨name, b, by rw [List.filter_append, hfs, hnb]; rfl⟩

/-- When `ParseRule` accepts every string, the loop returns the rules in the
order of the strings, after one call per string. -/
theorem parseRules_all_ok (E : Env S) (raws : List String) (rs : List S.Rule)
    (acc : List S.Rule)
    (h : List.Forall₂ (fun raw r => E.ParseRule raw = .ok r) raws rs) :
    parseRules E raws acc = (.ok (acc ++ rs), raws.map .parseRule) := by
  induction h generalizing acc with
  | nil => simp [parseRules]
  | cons hr _ ih =>
    rename_i raw r raws1 rs1 _
    simp [parseRules, hr, ih (acc ++ [r])]

/-- Up to line 84: when the first switch accepts the format and every rule
parses, `run` goes on with the code that obtains the plan. -/
theorem run_to_obtainPlan (E : Env S) (fl : Flags) (w : S.World) (tf : S.Terraform)
    (w1 : S.World) (v : S.Version) (w2 : S.World) (rules : List S.Rule)
    (hv : fl.printVersion = false)
    (htf : E.NewTerraform "." fl.terraformBin w = (.ok tf, w1))
    (hver : E.Version tf w1 = (.ok v, w2))
    (hfmt : fl.outputFormat = "commands" ∨
      (fl.outputFormat = "blocks" ∧ GreaterThanOrEqual E v E.v1_1 = true))
    (hparse : List.Forall₂ (fun raw r => E.ParseRule raw = .ok r) fl.ignoreRules rules) :
    run E fl w = emit (startEvents fl tf v ++ fl.ignoreRules.map .parseRule)
      (obtainPlan E fl tf rules w2) := by
  rw [run_pass E fl w tf w1 v w2 hv htf hver hfmt]
  have hp := parseRules_all_ok E fl.ignoreRules rules [] hparse
  simp only [List.nil_append] at hp
  unfold afterCheck
  rw [hp]
  simp [emit]

/-- On a path that obtains a plan, the code from line 84 on is the analysis of
that plan in the world the path left, followed by the deferred removal. -/
theorem obtainPlan_of_planObtained (E : Env S) (fl : Flags) (tf : S.Terraform)
    (rules : List S.Rule) (w2 : S.World) (pre : List (Event S)) (p : S.Plan) (w3 : S.World)
    (tmp : Option String) (h : PlanObtained E fl tf w2 pre p w3 tmp) :
    obtainPlan E fl tf rules w2 =
      ⟨(analyse E fl p rules w3).err,
       pre ++ (analyse E fl p rules w3).events ++ deferredEvents tmp,
       deferredWorld E tmp (analyse E fl p rules w3).world⟩ := by
  rcases h with ⟨hj, data, hR, hU, hpre, htmp⟩ | ⟨hj, wa, name, wb, b, wc, hI, hC, hP, hS, hpre, htmp⟩
  · subst hpre; subst htmp
    simp [obtainPlan, hj, hR, hU, emit, deferredEvents, deferredWorld]
  · subst hpre; subst htmp
    simp [obtainPlan, hj, hI, hC, hP, hS, emit, deferRemove, deferredEvents, deferredWorld]

/-- The whole of `run` on a path that obtains a plan. -/
theorem run_of_planObtained (E : Env S) (fl : Flags) (w : S.World) (tf : S.Terraform)
    (w1 : S.World) (v : S.Version) (w2 : S.World) (rules : List S.Rule)
    (pre : List (Event S)) (p : S.Plan) (w3 : S.World) (tmp : Option String)
    (hv : fl.printVersion = false)
    (htf : E.NewTerraform "." fl.terraformBin w = (.ok tf, w1))
    (hver : E.Version tf w1 = (.ok v, w2))
    (hfmt : fl.outputFormat = "commands" ∨
      (fl.outputFormat = "blocks" ∧ GreaterThanOrEqual E v E.v1_1 = true))
    (hparse : List.Forall₂ (fun raw r => E.ParseRule raw = .ok r) fl.ignoreRules rules)
    (hplan : PlanObtained E fl tf w2 pre p w3 tmp) :
    run E fl w =
      ⟨(analyse E fl p rules w3).err,
       startEvents fl tf v ++ fl.ignoreRules.map .parseRule ++ pre ++
         (analyse E fl p rules w3).events ++ deferredEvents tmp,
       deferredWorld E tmp (analyse E fl p rules w3).world⟩ := by
  rw [run_to_obtainPlan E fl w tf w1 v w2 rules hv htf hver hfmt hparse,
    obtainPlan_of_planObtained E fl tf rules w2 pre p w3 tmp hplan]
  simp [emit]

theorem planObtained_pre_classes (E : Env S) (fl : Flags) (tf : S.Terraform) (w2 : S.World)
    (pre : List (Event S)) (p : S.Plan) (w3 : S.World) (tmp : Option String)
    (h : PlanObtained E fl tf w2 pre p w3 tmp) :
    ∀ e ∈ pre, e.writesMoves = false ∧ e.toStdout = false ∧ e.printsDone = false := by
  rcases h with ⟨_, data, _, _, hpre, _⟩ | ⟨_, wa, name, wb, b, wc, _, _, _, _, hpre, _⟩
  · subst hpre
    intro e he
    simp at he
    rcases he with he | he <;> subst he <;> simp [Event.writesMoves]
  · subst hpre
    intro e he
    simp [logln] at he
    rcases he with he | he | he | he | he | he <;> subst he <;> simp [Event.writesMoves]

theorem eventsBeforeWrite_classes (E : Env S) (fl : Flags) (tf : S.Terraform) (v : S.Version)
    (w2 : S.World) (pre : List (Event S)) (p : S.Plan) (w3 : S.World) (tmp : Option String)
    (rules : List S.Rule) (a : S.Analysis)
    (h : PlanObtained E fl tf w2 pre p w3 tmp) :
    ∀ e ∈ eventsBeforeWrite fl tf v pre p rules a,
      e.writesMoves = false ∧ e.toStdout = false ∧ e.printsDone = false := by
  intro e he
  unfold eventsBeforeWrite at he
  simp only [List.append_assoc, List.mem_append] at he
  rcases he with he | he | he | he
  · have := startEvents_classes fl tf v e he
    exact ⟨(usesAnalysis_false e this.2.2.2.2.1).2.2.2.2.1, this.2.2.2.2.2.1,
      this.2.2.2.2.2.2⟩
  · rw [List.mem_map] at he
    obtain ⟨r, _, hr⟩ := he
    subst hr
    simp [Event.writesMoves]
  · exact planObtained_pre_classes E fl tf w2 pre p w3 tmp h e he
  · have := analyse_head_classes p rules fl.showAnalysis a e
      (by simp only [List.append_assoc, List.mem_append]; exact he)
    exact ⟨this.1, this.2.1, this.2.2.1⟩

theorem deferredEvents_classes (tmp : Option String) :
    ∀ e ∈ (deferredEvents tmp : List (Event S)),
      e.writesMoves = false ∧ e.toStdout = false ∧ e.printsDone = false ∧
        ∃ name, tmp = some name ∧ e = .remove name := by
  intro e he
  cases tmp with
  | none => simp [deferredEvents] at he
  | some name =>
    simp [deferredEvents] at he
    subst he
    simp [Event.writesMoves]

theorem analyse_events_head (E : Env S) (fl : Flags) (p : S.Plan) (r : List S.Rule)
    (w : S.World) :
    ∃ rest, (analyse E fl p r w).events =
      logln "Analysing plan..." :: .analysisFromPlan p r :: rest := by
  unfold analyse
  simp only [emit_events]
  exact ⟨_, rfl⟩

theorem touchesFile_before (fl : Flags) (tf : S.Terraform) (v : S.Version)
    (pre : List (Event S)) (p : S.Plan) (rules : List S.Rule) (a : S.Analysis) (e : Event S)
    (he : e ∈ eventsBeforeWrite fl tf v pre p rules a) (ht : e.touchesFile = true) :
    e ∈ pre := by
  unfold eventsBeforeWrite startEvents at he
  simp only [List.append_assoc, List.mem_append] at he
  rcases he with he | he | he | he | he | he | he
  · split at he
    · simp at he; subst he; simp at ht
    · simp at he
  · simp at he
    rcases he with he | he <;> subst he <;> simp at ht
  · rw [List.mem_map] at he
    obtain ⟨r, _, hr⟩ := he
    subst hr
    simp at ht
  · exact he
  · simp [logln] at he
    rcases he with he | he <;> subst he <;> simp at ht
  · split at he
    · simp at he; subst he; simp at ht
    · simp at he
  · simp at he; subst he; simp at ht

/-! ## Theorems -/

/-- C7: with `-version` set, whatever the other flags are, `run` prints the
embedded version string to standard output and returns nil; the only other
call is the assignment `format.NoColor = true` when `-no-color` is set, so the
terraform handle is not created, the terraform version is not queried, no
ignore rule is parsed, no plan is obtained and no move is written; the world
is left as it was. -/
theorem run_version_flag (E : Env S) (fl : Flags) (w : S.World)
    (hv : fl.printVersion = true) :
    (run E fl w).err = none ∧
    (run E fl w).events =
      (if fl.noColor then [.setNoColor] else []) ++
        [.print .stdout (.line E.tfautomvVersion)] ∧
    (run E fl w).world = w ∧
    ∀ e ∈ (run E fl w).events,
      e.isNewTerraform = false ∧ e.isVersion = false ∧ e.isParseRule = false ∧
      e.isInit = false ∧ e.isPlan = false ∧ e.isShowPlanFile = false ∧
      e.isReadFile = false ∧ e.usesAnalysis = false := by
  have hrun : run E fl w =
      emit (if fl.noColor then [.setNoColor] else [])
        ⟨none, [.print .stdout (.line E.tfautomvVersion)], w⟩ := by
    simp [run, hv]
  rw [hrun]
  refine ⟨rfl, rfl, rfl, ?_⟩
  intro e he
  simp only [emit_events, List.mem_append] at he
  rcases he with he | he
  · split at he
    · simp at he; subst he
      simp [Event.isNewTerraform, Event.isVersion, Event.isParseRule, Event.isInit,
        Event.isPlan, Event.isShowPlanFile, Event.isReadFile, Event.usesAnalysis,
        Event.isAnalysisFromPlan, Event.isMovesFromAnalysis, Event.printsAnalysis,
        Event.printsMoves, Event.writesMoves, Event.isAppendMoves, Event.isWriteCommands]
    · simp at he
  · simp at he; subst he
    simp [Event.isNewTerraform, Event.isVersion, Event.isParseRule, Event.isInit,
      Event.isPlan, Event.isShowPlanFile, Event.isReadFile, Event.usesAnalysis,
      Event.isAnalysisFromPlan, Event.isMovesFromAnalysis, Event.printsAnalysis,
      Event.printsMoves, Event.writesMoves, Event.isAppendMoves, Event.isWriteCommands]


theorem run_version_flag_witness :
    flagsVersion.printVersion = true ∧
    (run exampleEnv flagsVersion []).err = none ∧
    (run exampleEnv flagsVersion []).events = [.print .stdout (.line "0.5.0")] ∧
    (run exampleEnv flagsVersion []).world = [] :=
  ⟨rfl, (run_version_flag exampleEnv flagsVersion [] rfl).1,
    (run_version_flag exampleEnv flagsVersion [] rfl).2.1,
    (run_version_flag exampleEnv flagsVersion [] rfl).2.2.1⟩

/-- C8: starting from any slice `s` (nil included), the calls `Set(r1)`, ...,
`Set(rn)` leave the slice with the elements of `s` followed by `r1`, ..., `rn`
in that order, and each of the `n` calls returns a nil error. -/
theorem stringSliceValue_setAll (s : StringSlice) (rs : List String) :
    (stringSliceValue.setAll rs s).2.elems = s.elems ++ rs ∧
    (stringSliceValue.setAll rs s).1 = List.replicate rs.length none := by
  induction rs generalizing s with
  | nil => simp [stringSliceValue.setAll]
  | cons r rest ih =>
    have h := ih (stringSliceValue.Set r s).2
    simp only [stringSliceValue.setAll, h.1, h.2]
    simp [stringSliceValue.Set, StringSlice.append, StringSlice.elems, List.replicate]


theorem stringSliceValue_setAll_witness :
    (stringSliceValue.setAll ["a", "", "a"] none).2.elems = ["a", "", "a"] ∧
    (stringSliceValue.setAll ["a", "", "a"] none).1 = [none, none, none] :=
  stringSliceValue_setAll none ["a", "", "a"]

/-- C3: when `-version` is not set and terraform reports version `v`, `run`
makes a call after `tf.Version` (it gets past the first switch) if and only if
the format is "commands", or "blocks" with `v >= 1.1`.  For "blocks" with
`v < 1.1` it returns `terraform version <v> does not support moved blocks`, for
any other string `unknown output format "<format>"`, and in both cases
`tf.Version` is its last call: no ignore rule is parsed, terraform init and
plan are not run, no plan file is read. -/
theorem run_compat_check (E : Env S) (fl : Flags) (w : S.World) (tf : S.Terraform)
    (w1 : S.World) (v : S.Version) (w2 : S.World)
    (hv : fl.printVersion = false)
    (htf : E.NewTerraform "." fl.terraformBin w = (.ok tf, w1))
    (hver : E.Version tf w1 = (.ok v, w2)) :
    ((∃ e rest, (run E fl w).events = startEvents fl tf v ++ e :: rest) ↔
      (fl.outputFormat = "commands" ∨
        (fl.outputFormat = "blocks" ∧ GreaterThanOrEqual E v E.v1_1 = true))) ∧
    (fl.outputFormat = "blocks" → GreaterThanOrEqual E v E.v1_1 = false →
      (run E fl w).err = some (.errorf "terraform version %s does not support moved blocks"
        [.str (E.versionString v)]) ∧
      (run E fl w).events = startEvents fl tf v) ∧
    (fl.outputFormat ≠ "blocks" → fl.outputFormat ≠ "commands" →
      (run E fl w).err = some (.errorf "unknown output format %q" [.str fl.outputFormat]) ∧
      (run E fl w).events = startEvents fl tf v) ∧
    ((run E fl w).events = startEvents fl tf v →
      ∀ e ∈ (run E fl w).events,
        e.isParseRule = false ∧ e.isInit = false ∧ e.isPlan = false ∧ e.isReadFile = false) := by
  have hge := greaterThanOrEqual_eq_not_lessThan E v E.v1_1
  have hne := afterCheck_events_ne_nil E fl tf w2
  refine ⟨?_, ?_, ?_, ?_⟩
  · by_cases hfmt : fl.outputFormat = "commands" ∨
        (fl.outputFormat = "blocks" ∧ GreaterThanOrEqual E v E.v1_1 = true)
    · refine ⟨fun _ => hfmt, fun _ => ?_⟩
      rw [run_pass E fl w tf w1 v w2 hv htf hver hfmt]
      cases hev : (afterCheck E fl tf w2).events with
      | nil => exact absurd hev hne
      | cons a l => exact ⟨a, l, by simp [hev]⟩
    · refine ⟨fun h => ?_, fun h => absurd h hfmt⟩
      rw [run_stop E fl w tf w1 v w2 hv htf hver hfmt] at h
      obtain ⟨a, l, h⟩ := h
      simp at h
  · intro hb hl
    have hfmt : ¬ (fl.outputFormat = "commands" ∨
        (fl.outputFormat = "blocks" ∧ GreaterThanOrEqual E v E.v1_1 = true)) := by
      rw [hb, hl]; decide
    rw [run_stop E fl w tf w1 v w2 hv htf hver hfmt]
    simp [hb]
  · intro hb hc
    have hfmt : ¬ (fl.outputFormat = "commands" ∨
        (fl.outputFormat = "blocks" ∧ GreaterThanOrEqual E v E.v1_1 = true)) := by
      simp [hb, hc]
    rw [run_stop E fl w tf w1 v w2 hv htf hver hfmt]
    simp [hb]
  · intro h e he
    rw [h] at he
    have := startEvents_classes fl tf v e he
    exact ⟨this.1, this.2.1, this.2.2.1, this.2.2.2.1⟩


theorem run_compat_check_witness :
    flagsOldTerraform.printVersion = false ∧
    exampleEnv.NewTerraform "." flagsOldTerraform.terraformBin [] = (.ok "terraform-1.0", []) ∧
    exampleEnv.Version "terraform-1.0" [] = (.ok (1, 0), []) ∧
    flagsOldTerraform.outputFormat = "blocks" ∧
    GreaterThanOrEqual exampleEnv (1, 0) exampleEnv.v1_1 = false ∧
    (run exampleEnv flagsOldTerraform []).err =
      some (.errorf "terraform version %s does not support moved blocks" [.str "1.0"]) ∧
    (run exampleEnv flagsOldTerraform []).events =
      [.newTerraform "." "terraform-1.0" (.ok "terraform-1.0"), .tfVersion (.ok (1, 0))] :=
  ⟨rfl, rfl, rfl, rfl, rfl,
    ((run_compat_check exampleEnv flagsOldTerraform [] "terraform-1.0" [] (1, 0) []
      rfl rfl rfl).2.1 rfl rfl).1,
    ((run_compat_check exampleEnv flagsOldTerraform [] "terraform-1.0" [] (1, 0) []
      rfl rfl rfl).2.1 rfl rfl).2⟩

/-- C1: when `-version` is not set, terraform is found and reports a version,
and the format passes the compatibility check: if `raw` is the first string of
`-ignore`, in flag order, that `ignore.ParseRule` rejects, with error `e`, then
`run` returns `fmt.Errorf("invalid rule passed with -ignore flag %q: %w", raw, e)`,
which wraps `e`; its calls after `tf.Version` are the calls of `ParseRule` on
the strings up to `raw`, so it performs none of terraform init, terraform
plan, reading the plan file, `AnalysisFromPlan`, or a write of moves. -/
theorem run_invalid_rule (E : Env S) (fl : Flags) (w : S.World) (tf : S.Terraform)
    (w1 : S.World) (v : S.Version) (w2 : S.World)
    (pre : List String) (raw : String) (post : List String) (e : S.Err)
    (hv : fl.printVersion = false)
    (htf : E.NewTerraform "." fl.terraformBin w = (.ok tf, w1))
    (hver : E.Version tf w1 = (.ok v, w2))
    (hfmt : fl.outputFormat = "commands" ∨
      (fl.outputFormat = "blocks" ∧ GreaterThanOrEqual E v E.v1_1 = true))
    (hrules : fl.ignoreRules = pre ++ raw :: post)
    (hpre : ∀ r ∈ pre, ∃ rule, E.ParseRule r = .ok rule)
    (hraw : E.ParseRule raw = .error e) :
    (run E fl w).err =
      some (.errorf "invalid rule passed with -ignore flag %q: %w" [.str raw, .err e]) ∧
    (∃ err, (run E fl w).err = some err ∧ err.unwrap = some e) ∧
    (run E fl w).events = startEvents fl tf v ++ (pre ++ [raw]).map .parseRule ∧
    ∀ ev ∈ (run E fl w).events,
      ev.isInit = false ∧ ev.isPlan = false ∧ ev.isReadFile = false ∧
      ev.isAnalysisFromPlan = false ∧ ev.writesMoves = false := by
  have hparse := parseRules_first_rejected E pre raw post [] e hpre hraw
  have hafter : afterCheck E fl tf w2 =
      ⟨some (.errorf "invalid rule passed with -ignore flag %q: %w" [.str raw, .err e]),
       (pre ++ [raw]).map .parseRule, w2⟩ := by
    unfold afterCheck
    rw [hrules, hparse]
    simp [emit]
  have hrun2 := run_pass E fl w tf w1 v w2 hv htf hver hfmt
  have herr : (run E fl w).err =
      some (.errorf "invalid rule passed with -ignore flag %q: %w" [.str raw, .err e]) := by
    rw [hrun2, hafter]; rfl
  have hev : (run E fl w).events = startEvents fl tf v ++ (pre ++ [raw]).map .parseRule := by
    rw [hrun2, hafter]; rfl
  refine ⟨herr, ⟨_, herr, ?_⟩, hev, ?_⟩
  · simp [GoError.unwrap, List.findSome?]
  · intro ev hmem
    rw [hev, List.mem_append] at hmem
    rcases hmem with hmem | hmem
    · have := startEvents_classes fl tf v ev hmem
      simp only [Event.usesAnalysis, Bool.or_eq_false_iff] at this
      exact ⟨this.2.1, this.2.2.1, this.2.2.2.1, this.2.2.2.2.1.1.1.1.1, this.2.2.2.2.1.2⟩
    · rw [List.mem_map] at hmem
      obtain ⟨r, _, hr⟩ := hmem
      subst hr
      have := parseRule_classes (S := S) r
      simp only [Event.usesAnalysis, Bool.or_eq_false_iff] at this
      exact ⟨this.1, this.2.1, this.2.2.1, this.2.2.2.1.1.1.1.1, this.2.2.2.1.2⟩


theorem run_invalid_rule_witness :
    flagsInvalidRule.ignoreRules = ["aws_instance.tags"] ++ "" :: ["x"] ∧
    exampleEnv.ParseRule "aws_instance.tags" = .ok "aws_instance.tags" ∧
    exampleEnv.ParseRule "" = .error "empty rule" ∧
    (run exampleEnv flagsInvalidRule []).err =
      some (.errorf "invalid rule passed with -ignore flag %q: %w"
        [.str "", .err "empty rule"]) ∧
    (run exampleEnv flagsInvalidRule []).events =
      [.newTerraform "." "terraform" (.ok "terraform"), .tfVersion (.ok (1, 3)),
       .parseRule "aws_instance.tags", .parseRule ""] :=
  have h := run_invalid_rule exampleEnv flagsInvalidRule [] "terraform" [] (1, 3) []
    ["aws_instance.tags"] "" ["x"] "empty rule" rfl rfl rfl (Or.inl rfl) rfl
    (fun r hr => ⟨r, by
      have hr2 : r = "aws_instance.tags" := by simpa using hr
      subst hr2
      rfl⟩) rfl
  ⟨rfl, rfl, rfl, h.1, h.2.2.1⟩

/-- C2: if `AnalysisFromPlan`, called by `run` on a plan and a list of rules,
returns an error, then `run` returns exactly that error, and no call of the
execution prints `format.Analysis`, calls `MovesFromAnalysis`, prints moves,
writes moves (`AppendMovesToFile`, `WriteMovesShellCommands`) or touches
standard output. -/
theorem run_analysis_error (E : Env S) (fl : Flags) (w : S.World) (p : S.Plan)
    (rules : List S.Rule) (e : S.Err)
    (hcall : .analysisFromPlan p rules ∈ (run E fl w).events)
    (herr : E.AnalysisFromPlan p rules = .error e) :
    (run E fl w).err = some (.ext e) ∧
    ∀ ev ∈ (run E fl w).events,
      ev.printsAnalysis = false ∧ ev.isMovesFromAnalysis = false ∧ ev.printsMoves = false ∧
      ev.isAppendMoves = false ∧ ev.isWriteCommands = false ∧ ev.toStdout = false := by
  obtain ⟨pre, post, plan, rs, w1, h1, h2, h3, h4, _, _, hin, _⟩ :=
    run_shape_of_mem E fl w _ hcall (by simp [Event.usesAnalysis])
  obtain ⟨hp, hr⟩ := analyse_call_mem E fl plan rs w1 p rules hin
  subst hp; subst hr
  rw [analyse_error E fl p rules w1 e herr] at h1 h2
  refine ⟨h2, ?_⟩
  intro ev hev
  rw [h1, List.mem_append, List.mem_append] at hev
  rcases hev with (hev | hev) | hev
  · have := usesAnalysis_false ev (h3 ev hev).1
    exact ⟨this.2.2.1, this.2.1, this.2.2.2.1, this.2.2.2.2.2.1, this.2.2.2.2.2.2,
      (h3 ev hev).2.1⟩
  · simp [logln] at hev
    rcases hev with hev | hev <;> subst hev <;> simp
  · have := usesAnalysis_false ev (h4 ev hev).1
    exact ⟨this.2.2.1, this.2.1, this.2.2.2.1, this.2.2.2.2.2.1, this.2.2.2.2.2.2,
      (h4 ev hev).2.1⟩


theorem run_analysis_error_witness :
    (.analysisFromPlan [] [] : Event exampleSig) ∈ (run exampleEnv flagsEmptyPlan []).events ∧
    exampleEnv.AnalysisFromPlan [] [] = .error "malformed plan" ∧
    (run exampleEnv flagsEmptyPlan []).err = some (.ext "malformed plan") :=
  have hev : (run exampleEnv flagsEmptyPlan []).events =
      [.newTerraform "." "terraform" (.ok "terraform"), .tfVersion (.ok (1, 3)),
       .readFile "empty.json" (.ok "empty.json"), .unmarshal "empty.json",
       logln "Analysing plan...", .analysisFromPlan [] []] := rfl
  have hmem : (.analysisFromPlan [] [] : Event exampleSig) ∈
      (run exampleEnv flagsEmptyPlan []).events := by
    rw [hev]; simp
  ⟨hmem, rfl, (run_analysis_error exampleEnv flagsEmptyPlan [] [] [] "malformed plan" hmem rfl).1⟩

/-- C4: with `-dry-run` set, whatever the output format, if `MovesFromAnalysis`
is called and returns a non-empty list of moves, then `run` prints
`format.Moves` of that list to standard error and returns nil, and no call of
the execution is `AppendMovesToFile` or `WriteMovesShellCommands` or touches
standard output. -/
theorem run_dry_run (E : Env S) (fl : Flags) (w : S.World) (a : S.Analysis)
    (hdry : fl.dryRun = true)
    (hcall : .movesFromAnalysis a ∈ (run E fl w).events)
    (hne : E.MovesFromAnalysis a ≠ []) :
    (run E fl w).err = none ∧
    .print .stderr (.moves (E.MovesFromAnalysis a)) ∈ (run E fl w).events ∧
    ∀ ev ∈ (run E fl w).events,
      ev.isAppendMoves = false ∧ ev.isWriteCommands = false ∧ ev.toStdout = false := by
  obtain ⟨pre, post, plan, rs, w1, h1, h2, h3, h4, _, _, hin, _⟩ :=
    run_shape_of_mem E fl w _ hcall (by simp [Event.usesAnalysis])
  have hA := analyse_moves_mem E fl plan rs w1 a hin
  have hlen : (E.MovesFromAnalysis a).length ≠ 0 := by
    simpa [List.length_eq_zero] using hne
  rw [analyse_ok E fl plan rs w1 a hA] at h1 h2
  simp only [hlen, hdry, if_true, if_false, emit_events, emit_err] at h1 h2
  refine ⟨h2, ?_, ?_⟩
  · rw [h1]; simp
  · intro ev hev
    rw [h1, List.mem_append, List.mem_append] at hev
    rcases hev with (hev | hev) | hev
    · have := usesAnalysis_false ev (h3 ev hev).1
      exact ⟨this.2.2.2.2.2.1, this.2.2.2.2.2.2, (h3 ev hev).2.1⟩
    · simp only [List.mem_append] at hev
      rcases hev with ((hev | hev) | hev) | hev
      · simp [logln] at hev
        rcases hev with hev | hev <;> subst hev <;> simp
      · split at hev
        · simp at hev; subst hev; simp
        · simp at hev
      · simp at hev; subst hev; simp
      · simp at hev; subst hev; simp
    · have := usesAnalysis_false ev (h4 ev hev).1
      exact ⟨this.2.2.2.2.2.1, this.2.2.2.2.2.2, (h4 ev hev).2.1⟩


theorem run_dry_run_witness :
    flagsDryRun.dryRun = true ∧
    (.movesFromAnalysis [("a.old", "a.new")] : Event exampleSig) ∈
      (run exampleEnv flagsDryRun []).events ∧
    exampleEnv.MovesFromAnalysis [("a.old", "a.new")] = [("a.old", "a.new")] ∧
    (run exampleEnv flagsDryRun []).err = none ∧
    (.print .stderr (.moves [("a.old", "a.new")]) : Event exampleSig) ∈
      (run exampleEnv flagsDryRun []).events :=
  have hev : (run exampleEnv flagsDryRun []).events =
      [.newTerraform "." "terraform" (.ok "terraform"), .tfVersion (.ok (1, 3)),
       .readFile "plan.json" (.ok "plan.json"), .unmarshal "plan.json",
       logln "Analysing plan...", .analysisFromPlan [("a.old", "a.new")] [],
       .movesFromAnalysis [("a.old", "a.new")],
       .print .stderr (.moves [("a.old", "a.new")])] := rfl
  have hmem : (.movesFromAnalysis [("a.old", "a.new")] : Event exampleSig) ∈
      (run exampleEnv flagsDryRun []).events := by
    rw [hev]; simp
  have h := run_dry_run exampleEnv flagsDryRun [] [("a.old", "a.new")] rfl hmem
    (List.cons_ne_nil _ _)
  ⟨rfl, hmem, rfl, h.1, h.2.1⟩

/-- C10: the `default` branch of the second switch is unreachable.  In every
execution of `run`, if `MovesFromAnalysis` is called (the second switch comes
after it), or a plan is run, shown or read, then the format is "blocks" or
"commands"; and if `run` returns an error `unknown output format`, then it
made no call after the first switch: no rule parsed, no terraform init or
plan, no plan shown or read, no analysis, no moves. -/
theorem run_second_switch_default_unreachable (E : Env S) (fl : Flags) (w : S.World) :
    (∀ ev ∈ (run E fl w).events,
      (ev.isMovesFromAnalysis = true ∨ ev.isPlan = true ∨ ev.isShowPlanFile = true ∨
        ev.isReadFile = true) →
      (fl.outputFormat = "blocks" ∨ fl.outputFormat = "commands")) ∧
    (∀ args, (run E fl w).err = some (.errorf "unknown output format %q" args) →
      ¬ (fl.outputFormat = "blocks" ∨ fl.outputFormat = "commands") ∧
      ∀ ev ∈ (run E fl w).events,
        ev.isParseRule = false ∧ ev.isInit = false ∧ ev.isPlan = false ∧
        ev.isShowPlanFile = false ∧ ev.isReadFile = false ∧ ev.usesAnalysis = false) := by
  constructor
  · intro ev hev hcls
    by_contra hfmt
    have hb := beforeCheck_classes ev (run_rejected E fl w hfmt ev hev)
    have hu := usesAnalysis_false ev hb.2.2.2.2.2.2.2
    rcases hcls with h | h | h | h
    · rw [hu.2.1] at h; cases h
    · rw [hb.2.2.2.1] at h; cases h
    · rw [hb.2.2.2.2.1] at h; cases h
    · rw [hb.2.2.2.2.2.1] at h; cases h
  · intro args herr
    have hfmt : ¬ (fl.outputFormat = "blocks" ∨ fl.outputFormat = "commands") :=
      fun h => run_err_accepted E fl w h args herr
    refine ⟨hfmt, ?_⟩
    intro ev hev
    have hb := beforeCheck_classes ev (run_rejected E fl w hfmt ev hev)
    exact ⟨hb.1, hb.2.1, hb.2.2.2.1, hb.2.2.2.2.1, hb.2.2.2.2.2.1, hb.2.2.2.2.2.2.2⟩


theorem run_second_switch_default_unreachable_witness :
    (run exampleEnv flagsYaml []).err =
      some (.errorf "unknown output format %q" [.str "yaml"]) ∧
    (¬ (flagsYaml.outputFormat = "blocks" ∨ flagsYaml.outputFormat = "commands")) ∧
    (run exampleEnv flagsYaml []).events =
      [.newTerraform "." "terraform" (.ok "terraform"), .tfVersion (.ok (1, 3))] ∧
    ((.tfPlan "/tmp/tfautomv.1.plan" (.ok true) : Event exampleSig) ∈
        (run exampleEnv flagsCommands []).events ∧
      (flagsCommands.outputFormat = "blocks" ∨ flagsCommands.outputFormat = "commands")) :=
  have hmem : (.tfPlan "/tmp/tfautomv.1.plan" (.ok true) : Event exampleSig) ∈
      (run exampleEnv flagsCommands []).events := by
    rw [show (run exampleEnv flagsCommands []).events =
      [.newTerraform "." "terraform" (.ok "terraform"), .tfVersion (.ok (1, 3)),
       logln "Running \"terraform init\"...", .tfInit none,
       logln "Running \"terraform plan\"...",
       .createTemp "" "tfautomv.*.plan" (.ok "/tmp/tfautomv.1.plan"),
       .tfPlan "/tmp/tfautomv.1.plan" (.ok true),
       .showPlanFile "/tmp/tfautomv.1.plan" (.ok [("a.old", "a.new")]),
       logln "Analysing plan...", .analysisFromPlan [("a.old", "a.new")] [],
       .movesFromAnalysis [("a.old", "a.new")],
       .writeMovesShellCommands [("a.old", "a.new")] .stdout,
       .print .stderr (.done "Wrote 1 commands to standard output."),
       .remove "/tmp/tfautomv.1.plan"] from rfl]
    simp
  ⟨rfl,
    ((run_second_switch_default_unreachable exampleEnv flagsYaml []).2 [.str "yaml"] rfl).1,
    rfl,
    hmem,
    (run_second_switch_default_unreachable exampleEnv flagsCommands []).1 _ hmem
      (Or.inr (Or.inl rfl))⟩

/-- C9: in every execution of `run`, the report `format.Analysis(a)` is
printed (to standard error) if and only if `-show-analysis` is set and
`AnalysisFromPlan` was called and returned `a`; every call before the print
of the report is none of `MovesFromAnalysis`, a print of moves, a write of
moves; and the execution with `-show-analysis` set, the print of the report
left out, makes the same calls with the same arguments and results, returns
the same error and leaves the same world as the execution with it unset. -/
theorem run_show_analysis (E : Env S) (fl : Flags) (w : S.World) :
    (∀ a, .print .stderr (.analysis a) ∈ (run E fl w).events ↔
      (fl.showAnalysis = true ∧
        ∃ p rs, .analysisFromPlan p rs ∈ (run E fl w).events ∧
          E.AnalysisFromPlan p rs = .ok a)) ∧
    (∀ ev ∈ (run E fl w).events, ev.printsAnalysis = true →
      ∃ a, ev = .print .stderr (.analysis a)) ∧
    (∀ pre ev post, (run E fl w).events = pre ++ ev :: post → ev.printsAnalysis = true →
      ∀ x ∈ pre, x.isMovesFromAnalysis = false ∧ x.printsMoves = false ∧
        x.writesMoves = false) ∧
    ((run E { fl with showAnalysis := true } w).events.filter (fun e => !e.printsAnalysis) =
        (run E { fl with showAnalysis := false } w).events ∧
      (run E { fl with showAnalysis := true } w).err =
        (run E { fl with showAnalysis := false } w).err ∧
      (run E { fl with showAnalysis := true } w).world =
        (run E { fl with showAnalysis := false } w).world) := by
  refine ⟨?_, ?_, ?_, ?_⟩
  · intro a
    constructor
    · intro hmem
      obtain ⟨pre, post, plan, rs, w1, h1, _, _, _, _, _, hin, _⟩ :=
        run_shape_of_mem E fl w _ hmem (by simp [Event.usesAnalysis])
      obtain ⟨hs, a1, hA, ha⟩ := analyse_print_mem E fl plan rs w1 _ hin (by simp)
      simp at ha
      subst ha
      refine ⟨hs, plan, rs, ?_, hA⟩
      rw [h1, analyse_ok E fl plan rs w1 a hA]
      simp
    · rintro ⟨hs, p, rs, hmem, hA⟩
      obtain ⟨pre, post, plan, rs1, w1, h1, _, _, _, _, _, hin, _⟩ :=
        run_shape_of_mem E fl w _ hmem (by simp [Event.usesAnalysis])
      obtain ⟨hp, hr⟩ := analyse_call_mem E fl plan rs1 w1 p rs hin
      subst hp; subst hr
      rw [h1, analyse_ok E fl p rs w1 a hA]
      simp [hs]
  · intro ev hev hp
    obtain ⟨pre, post, plan, rs, w1, _, _, _, _, _, _, hin, _⟩ :=
      run_shape_of_mem E fl w ev hev (by rw [Event.usesAnalysis, hp]; simp)
    obtain ⟨_, a, _, ha⟩ := analyse_print_mem E fl plan rs w1 ev hin hp
    exact ⟨a, ha⟩
  · intro pre ev post hdec hp x hx
    obtain ⟨X, Y, hXY, hX, hY⟩ := run_split E fl w
    rw [hXY] at hdec
    have hpre : ∀ x ∈ pre, x.aboutMoves = false := by
      rcases List.append_eq_append_iff.mp hdec with ⟨c, hc1, hc2⟩ | ⟨c, hc1, hc2⟩
      · have hev : ev ∈ Y := by rw [hc2]; simp
        rw [hY ev hev] at hp
        cases hp
      · intro x hx
        exact hX x (by rw [hc1]; simp [hx])
    have := hpre x hx
    simp only [Event.aboutMoves, Bool.or_eq_false_iff] at this
    exact ⟨this.1.1, this.1.2, this.2⟩
  · have h := hush_run E fl w
    refine ⟨?_, ?_, ?_⟩
    · rw [← h]; rfl
    · rw [← h]; rfl
    · rw [← h]; rfl


theorem run_show_analysis_witness :
    flagsShowAnalysis.showAnalysis = true ∧
    (.analysisFromPlan [("a.old", "a.new")] [] : Event exampleSig) ∈
      (run exampleEnv flagsShowAnalysis []).events ∧
    exampleEnv.AnalysisFromPlan [("a.old", "a.new")] [] = .ok [("a.old", "a.new")] ∧
    (.print .stderr (.analysis [("a.old", "a.new")]) : Event exampleSig) ∈
      (run exampleEnv flagsShowAnalysis []).events :=
  have hev : (run exampleEnv flagsShowAnalysis []).events =
      [.newTerraform "." "terraform" (.ok "terraform"), .tfVersion (.ok (1, 3)),
       .readFile "plan.json" (.ok "plan.json"), .unmarshal "plan.json",
       logln "Analysing plan...", .analysisFromPlan [("a.old", "a.new")] [],
       .print .stderr (.analysis [("a.old", "a.new")]),
       .movesFromAnalysis [("a.old", "a.new")],
       .writeMovesShellCommands [("a.old", "a.new")] .stdout,
       .print .stderr (.done "Wrote 1 commands to standard output.")] := rfl
  have hmem : (.analysisFromPlan [("a.old", "a.new")] [] : Event exampleSig) ∈
      (run exampleEnv flagsShowAnalysis []).events := by
    rw [hev]; simp
  ⟨rfl, hmem, rfl,
    ((run_show_analysis exampleEnv flagsShowAnalysis []).1 [("a.old", "a.new")]).2
      ⟨rfl, _, _, hmem, rfl⟩⟩

/-- C5, the claim as stated fails: with `-output commands`, the analysis
successful, `-dry-run` unset and one move found, `run` writes the move with
`WriteMovesShellCommands` and yet touches files: without `-plan-file` it
creates the temporary plan file, has terraform write and show it, and removes
it on return; with `-plan-file` it reads that file. -/
theorem run_write_moves_touches_file :
    flagsCommands.dryRun = false ∧ flagsCommands.outputFormat = "commands" ∧
    exampleEnv.AnalysisFromPlan [("a.old", "a.new")] [] = .ok [("a.old", "a.new")] ∧
    exampleEnv.MovesFromAnalysis [("a.old", "a.new")] = [("a.old", "a.new")] ∧
    (.writeMovesShellCommands [("a.old", "a.new")] .stdout : Event exampleSig) ∈
      (run exampleEnv flagsCommands []).events ∧
    (run exampleEnv flagsCommands []).err = none ∧
    ¬ (∀ ev ∈ (run exampleEnv flagsCommands []).events, ev.touchesFile = false) ∧
    ¬ (∀ ev ∈ (run exampleEnv flagsCommandsFile []).events, ev.touchesFile = false) := by
  have hev : (run exampleEnv flagsCommands []).events =
      [.newTerraform "." "terraform" (.ok "terraform"), .tfVersion (.ok (1, 3)),
       logln "Running \"terraform init\"...", .tfInit none,
       logln "Running \"terraform plan\"...",
       .createTemp "" "tfautomv.*.plan" (.ok "/tmp/tfautomv.1.plan"),
       .tfPlan "/tmp/tfautomv.1.plan" (.ok true),
       .showPlanFile "/tmp/tfautomv.1.plan" (.ok [("a.old", "a.new")]),
       logln "Analysing plan...", .analysisFromPlan [("a.old", "a.new")] [],
       .movesFromAnalysis [("a.old", "a.new")],
       .writeMovesShellCommands [("a.old", "a.new")] .stdout,
       .print .stderr (.done "Wrote 1 commands to standard output."),
       .remove "/tmp/tfautomv.1.plan"] := rfl
  have hevf : (run exampleEnv flagsCommandsFile []).events =
      [.newTerraform "." "terraform" (.ok "terraform"), .tfVersion (.ok (1, 3)),
       .readFile "plan.json" (.ok "plan.json"), .unmarshal "plan.json",
       logln "Analysing plan...", .analysisFromPlan [("a.old", "a.new")] [],
       .movesFromAnalysis [("a.old", "a.new")],
       .writeMovesShellCommands [("a.old", "a.new")] .stdout,
       .print .stderr (.done "Wrote 1 commands to standard output.")] := rfl
  refine ⟨rfl, rfl, rfl, rfl, ?_, rfl, ?_, ?_⟩
  · rw [hev]; simp
  · intro h
    have := h (.remove "/tmp/tfautomv.1.plan") (by rw [hev]; simp)
    simp at this
  · intro h
    have := h (.readFile "plan.json" (.ok "plan.json")) (by rw [hevf]; simp)
    simp at this

/-- C5 (amended): when `-version` is not set, terraform reports a version
accepted for the format, the rules parse, a plan `p` is obtained in the world
`w3` (from `-plan-file` or from terraform), its analysis succeeds with `a`,
`-dry-run` is not set and `MovesFromAnalysis(a)` is a non-empty list `moves`
of `n` moves, then no call up to `MovesFromAnalysis` writes moves, touches
standard output or prints a completion message, and the moves go to exactly
one sink.  For "blocks": `run` calls `AppendMovesToFile(moves, "moves.tf")` in
the world `w3`, returns the error of that call, prints `Added n moved blocks
to "moves.tf".` exactly when that error is nil, makes no other call than the
deferred removal of the temporary plan file, leaves the world that
`AppendMovesToFile` left (after that removal), and no call touches standard
output.  For "commands": `run` calls `WriteMovesShellCommands(moves,
os.Stdout)`, prints `Wrote n commands to standard output.`, returns nil, and
writes no moves to a file: the world is the one the plan left (after the
deferred removal), and the only calls that touch a file are those that
obtained the plan and the deferred removal of the temporary plan file. -/
theorem run_write_moves (E : Env S) (fl : Flags) (w : S.World) (tf : S.Terraform)
    (w1 : S.World) (v : S.Version) (w2 : S.World) (rules : List S.Rule)
    (pre : List (Event S)) (p : S.Plan) (w3 : S.World) (tmp : Option String) (a : S.Analysis)
    (hv : fl.printVersion = false)
    (htf : E.NewTerraform "." fl.terraformBin w = (.ok tf, w1))
    (hver : E.Version tf w1 = (.ok v, w2))
    (hfmt : fl.outputFormat = "commands" ∨
      (fl.outputFormat = "blocks" ∧ GreaterThanOrEqual E v E.v1_1 = true))
    (hparse : List.Forall₂ (fun raw r => E.ParseRule raw = .ok r) fl.ignoreRules rules)
    (hplan : PlanObtained E fl tf w2 pre p w3 tmp)
    (hA : E.AnalysisFromPlan p rules = .ok a)
    (hdry : fl.dryRun = false)
    (hne : E.MovesFromAnalysis a ≠ []) :
    (∀ ev ∈ eventsBeforeWrite fl tf v pre p rules a,
      ev.writesMoves = false ∧ ev.toStdout = false ∧ ev.printsDone = false) ∧
    (fl.outputFormat = "blocks" →
      ∀ r w4, E.AppendMovesToFile (E.MovesFromAnalysis a) "moves.tf" w3 = (r, w4) →
        (run E fl w).err = r.map .ext ∧
        (run E fl w).events =
          eventsBeforeWrite fl tf v pre p rules a ++
            (.appendMovesToFile (E.MovesFromAnalysis a) "moves.tf" r ::
              doneUnlessError r ("Added " ++ toString (E.MovesFromAnalysis a).length ++
                " moved blocks to \"moves.tf\".")) ++
            deferredEvents tmp ∧
        (run E fl w).world = deferredWorld E tmp w4 ∧
        (run E fl w).events.filter Event.writesMoves =
          [.appendMovesToFile (E.MovesFromAnalysis a) "moves.tf" r] ∧
        (∀ ev ∈ (run E fl w).events, ev.toStdout = false)) ∧
    (fl.outputFormat = "commands" →
      (run E fl w).err = none ∧
      (run E fl w).events =
        eventsBeforeWrite fl tf v pre p rules a ++
          [.writeMovesShellCommands (E.MovesFromAnalysis a) .stdout,
           .print .stderr (.done ("Wrote " ++ toString (E.MovesFromAnalysis a).length ++
             " commands to standard output."))] ++
          deferredEvents tmp ∧
      (run E fl w).world = deferredWorld E tmp w3 ∧
      (run E fl w).events.filter Event.writesMoves =
        [.writeMovesShellCommands (E.MovesFromAnalysis a) .stdout] ∧
      (∀ ev ∈ (run E fl w).events, ev.touchesFile = true →
        ev ∈ pre ∨ ∃ name, tmp = some name ∧ ev = .remove name)) := by
  have hrun := run_of_planObtained E fl w tf w1 v w2 rules pre p w3 tmp hv htf hver hfmt
    hparse hplan
  have hlen : (E.MovesFromAnalysis a).length ≠ 0 := by
    simpa [List.length_eq_zero] using hne
  have han : analyse E fl p rules w3 =
      emit ([logln "Analysing plan...", .analysisFromPlan p rules] ++
          (if fl.showAnalysis then [.print .stderr (.analysis a)] else []) ++
          [.movesFromAnalysis a])
        (writeMoves E fl (E.MovesFromAnalysis a) w3) := by
    rw [analyse_ok E fl p rules w3 a hA]
    simp [hlen, hdry]
  have hcl := eventsBeforeWrite_classes E fl tf v w2 pre p w3 tmp rules a hplan
  have hdef := deferredEvents_classes (S := S) tmp
  have hfl : (eventsBeforeWrite fl tf v pre p rules a).filter Event.writesMoves = [] := by
    rw [List.filter_eq_nil_iff]
    intro e he
    rw [(hcl e he).1]
    simp
  have hfd : (deferredEvents tmp : List (Event S)).filter Event.writesMoves = [] := by
    rw [List.filter_eq_nil_iff]
    intro e he
    rw [(hdef e he).1]
    simp
  refine ⟨hcl, ?_, ?_⟩
  · intro hb r w4 hap
    have hw : writeMoves E fl (E.MovesFromAnalysis a) w3 =
        ⟨r.map .ext,
         .appendMovesToFile (E.MovesFromAnalysis a) "moves.tf" r ::
           doneUnlessError r ("Added " ++ toString (E.MovesFromAnalysis a).length ++
             " moved blocks to \"moves.tf\"."),
         w4⟩ := by
      unfold writeMoves
      simp only [hb, if_true, hap]
      cases r <;> rfl
    have hev : (run E fl w).events =
        eventsBeforeWrite fl tf v pre p rules a ++
          (.appendMovesToFile (E.MovesFromAnalysis a) "moves.tf" r ::
            doneUnlessError r ("Added " ++ toString (E.MovesFromAnalysis a).length ++
                " moved blocks to \"moves.tf\".")) ++
          deferredEvents tmp := by
      rw [hrun, han, hw]
      simp [emit, eventsBeforeWrite]
    refine ⟨?_, hev, ?_, ?_, ?_⟩
    · rw [hrun, han, hw]; rfl
    · rw [hrun, han, hw]; rfl
    · rw [hev]
      simp only [List.filter_append, hfl, hfd]
      cases r <;> simp [Event.writesMoves, List.filter, doneUnlessError]
    · intro ev hmem
      rw [hev, List.mem_append, List.mem_append] at hmem
      rcases hmem with (hmem | hmem) | hmem
      · exact (hcl ev hmem).2.1
      · cases r <;> simp [doneUnlessError] at hmem
        · rcases hmem with hmem | hmem <;> subst hmem <;> simp
        · subst hmem; simp
      · exact (hdef ev hmem).2.1
  · intro hc
    have hb : fl.outputFormat ≠ "blocks" := by rw [hc]; decide
    have hw : writeMoves E fl (E.MovesFromAnalysis a) w3 =
        ⟨none,
         [.writeMovesShellCommands (E.MovesFromAnalysis a) .stdout,
          .print .stderr (.done ("Wrote " ++ toString (E.MovesFromAnalysis a).length ++
            " commands to standard output."))],
         w3⟩ := by
      unfold writeMoves
      simp [hb, hc]
    have hev : (run E fl w).events =
        eventsBeforeWrite fl tf v pre p rules a ++
          [.writeMovesShellCommands (E.MovesFromAnalysis a) .stdout,
           .print .stderr (.done ("Wrote " ++ toString (E.MovesFromAnalysis a).length ++
             " commands to standard output."))] ++
          deferredEvents tmp := by
      rw [hrun, han, hw]
      simp [emit, eventsBeforeWrite]
    refine ⟨?_, hev, ?_, ?_, ?_⟩
    · rw [hrun, han, hw]; rfl
    · rw [hrun, han, hw]; rfl
    · rw [hev]
      simp only [List.filter_append, hfl, hfd]
      simp [Event.writesMoves, List.filter]
    · intro ev hmem ht
      rw [hev, List.mem_append, List.mem_append] at hmem
      rcases hmem with (hmem | hmem) | hmem
      · exact Or.inl (touchesFile_before fl tf v pre p rules a ev hmem ht)
      · simp at hmem
        rcases hmem with hmem | hmem <;> subst hmem <;> simp at ht
      · exact Or.inr (hdef ev hmem).2.2.2

theorem run_write_moves_witness :
    PlanObtained exampleEnv flagsBlocksFile "terraform" []
      [.readFile "plan.json" (.ok "plan.json"), .unmarshal "plan.json"]
      [("a.old", "a.new")] [] none ∧
    exampleEnv.AppendMovesToFile [("a.old", "a.new")] "moves.tf" [] = (none, ["append"]) ∧
    (run exampleEnv flagsBlocksFile []).err = none ∧
    (run exampleEnv flagsBlocksFile []).events =
      [.newTerraform "." "terraform" (.ok "terraform"), .tfVersion (.ok (1, 3)),
       .readFile "plan.json" (.ok "plan.json"), .unmarshal "plan.json",
       logln "Analysing plan...", .analysisFromPlan [("a.old", "a.new")] [],
       .movesFromAnalysis [("a.old", "a.new")],
       .appendMovesToFile [("a.old", "a.new")] "moves.tf" none,
       .print .stderr (.done "Added 1 moved blocks to \"moves.tf\".")] ∧
    (run exampleEnv flagsBlocksFile []).world = ["append"] :=
  have hplan : PlanObtained exampleEnv flagsBlocksFile "terraform" []
      [.readFile "plan.json" (.ok "plan.json"), .unmarshal "plan.json"]
      [("a.old", "a.new")] [] none :=
    Or.inl ⟨by decide, "plan.json", rfl, rfl, rfl, rfl⟩
  have h := (run_write_moves exampleEnv flagsBlocksFile [] "terraform" [] (1, 3) [] []
    [.readFile "plan.json" (.ok "plan.json"), .unmarshal "plan.json"]
    [("a.old", "a.new")] [] none [("a.old", "a.new")]
    rfl rfl rfl (Or.inr ⟨rfl, rfl⟩) List.Forall₂.nil hplan rfl rfl
    (List.cons_ne_nil _ _)).2.1 rfl none ["append"] rfl
  ⟨hplan, rfl, h.1, h.2.1, h.2.2.1⟩

/-- C6: the plan handed to `AnalysisFromPlan` has one of two sources, decided
by `-plan-file`.

In every execution: if `-plan-file` is not empty, `run` never calls `tf.Init`,
`os.CreateTemp`, `tf.Plan` or `tf.ShowPlanFile`, the only file it reads is
the one named by the flag, any plan analysed is the decoding of the content
read, and a failed read or decoding is the error returned; if `-plan-file`
is empty, `run` never calls
`os.ReadFile` or `json.Unmarshal` and calls `tf.Plan` at most once.

In every execution that reaches line 84 (`-version` not set, terraform found,
its version accepted for the format, every rule parsed to `rules`), with `w2`
the world then:
with `-plan-file` set, `run` calls `os.ReadFile` on that file in `w2`; if the
read fails, `run` returns that error; otherwise it decodes the content read;
if decoding fails, `run` returns that error; otherwise the next calls are
the log line and `AnalysisFromPlan` on the decoded plan, and the rest of the
execution is the analysis of that plan;
with `-plan-file` empty, `run` calls `tf.Init` in `w2` and returns its error
if it fails; then `os.CreateTemp`, returning its error if it fails; then
`tf.Plan` once, writing to the file created, returning its error if it fails;
then `tf.ShowPlanFile` on that same file in the world `tf.Plan` left,
returning its error if it fails; otherwise the next calls are the log line
and `AnalysisFromPlan` on the plan shown, and the rest of the execution is
the analysis of that plan; once the file is created, its removal is the last
call of `run`, whatever `run` returns. -/
theorem run_plan_source (E : Env S) (fl : Flags) (w : S.World) :
    (fl.jsonPlanFile ≠ "" →
      (∀ ev ∈ (run E fl w).events,
        ev.isInit = false ∧ ev.isCreateTemp = false ∧ ev.isPlan = false ∧
        ev.isShowPlanFile = false) ∧
      (∀ name r, .readFile name r ∈ (run E fl w).events → name = fl.jsonPlanFile) ∧
      (∀ p rs, .analysisFromPlan p rs ∈ (run E fl w).events →
        ∃ data, .readFile fl.jsonPlanFile (.ok data) ∈ (run E fl w).events ∧
          E.Unmarshal data = .ok p) ∧
      (∀ name e, .readFile name (.error e) ∈ (run E fl w).events →
        (run E fl w).err = some (.ext e)) ∧
      (∀ data e, .unmarshal data ∈ (run E fl w).events →
        E.Unmarshal data = .error e → (run E fl w).err = some (.ext e))) ∧
    (fl.jsonPlanFile = "" →
      (∀ ev ∈ (run E fl w).events, ev.isReadFile = false ∧ ev.isUnmarshal = false) ∧
      ((run E fl w).events.filter Event.isPlan).length ≤ 1 ∧
      (∀ p rs, .analysisFromPlan p rs ∈ (run E fl w).events →
        ∃ name b,
          (run E fl w).events.filter Event.planStep =
            [.tfInit none, .tfPlan name (.ok b), .showPlanFile name (.ok p),
             .analysisFromPlan p rs])) ∧
    (∀ (tf : S.Terraform) (w1 : S.World) (v : S.Version) (w2 : S.World) (rules : List S.Rule),
      fl.printVersion = false →
      E.NewTerraform "." fl.terraformBin w = (.ok tf, w1) →
      E.Version tf w1 = (.ok v, w2) →
      (fl.outputFormat = "commands" ∨
        (fl.outputFormat = "blocks" ∧ GreaterThanOrEqual E v E.v1_1 = true)) →
      List.Forall₂ (fun raw r => E.ParseRule raw = .ok r) fl.ignoreRules rules →
      (fl.jsonPlanFile ≠ "" →
        (∀ e w3, E.ReadFile fl.jsonPlanFile w2 = (.error e, w3) →
          run E fl w = ⟨some (.ext e),
            eventsBeforePlan fl tf v ++ [.readFile fl.jsonPlanFile (.error e)], w3⟩) ∧
        (∀ data w3 e, E.ReadFile fl.jsonPlanFile w2 = (.ok data, w3) →
          E.Unmarshal data = .error e →
          run E fl w = ⟨some (.ext e),
            eventsBeforePlan fl tf v ++
              [.readFile fl.jsonPlanFile (.ok data), .unmarshal data], w3⟩) ∧
        (∀ data w3 p, E.ReadFile fl.jsonPlanFile w2 = (.ok data, w3) →
          E.Unmarshal data = .ok p →
          run E fl w = emit
            (eventsBeforePlan fl tf v ++
              [.readFile fl.jsonPlanFile (.ok data), .unmarshal data])
            (analyse E fl p rules w3) ∧
          ∃ rest, (run E fl w).events =
            eventsBeforePlan fl tf v ++
              [.readFile fl.jsonPlanFile (.ok data), .unmarshal data,
               logln "Analysing plan...", .analysisFromPlan p rules] ++ rest)) ∧
      (fl.jsonPlanFile = "" →
        (∀ e w3, E.Init tf w2 = (some e, w3) →
          run E fl w = ⟨some (.ext e),
            eventsBeforePlan fl tf v ++
              [logln "Running \"terraform init\"...", .tfInit (some e)], w3⟩) ∧
        (∀ w3 e w4, E.Init tf w2 = (none, w3) →
          E.CreateTemp "" "tfautomv.*.plan" w3 = (.error e, w4) →
          run E fl w = ⟨some (.ext e),
            eventsBeforePlan fl tf v ++
              [logln "Running \"terraform init\"...", .tfInit none,
               logln "Running \"terraform plan\"...",
               .createTemp "" "tfautomv.*.plan" (.error e)], w4⟩) ∧
        (∀ w3 name w4 e w5, E.Init tf w2 = (none, w3) →
          E.CreateTemp "" "tfautomv.*.plan" w3 = (.ok name, w4) →
          E.Plan tf name w4 = (.error e, w5) →
          run E fl w = ⟨some (.ext e),
            eventsBeforePlan fl tf v ++
              [logln "Running \"terraform init\"...", .tfInit none,
               logln "Running \"terraform plan\"...",
               .createTemp "" "tfautomv.*.plan" (.ok name),
               .tfPlan name (.error e), .remove name], (E.Remove name w5).2⟩) ∧
        (∀ w3 name w4 b w5 e w6, E.Init tf w2 = (none, w3) →
          E.CreateTemp "" "tfautomv.*.plan" w3 = (.ok name, w4) →
          E.Plan tf name w4 = (.ok b, w5) →
          E.ShowPlanFile tf name w5 = (.error e, w6) →
          run E fl w = ⟨some (.ext e),
            eventsBeforePlan fl tf v ++
              [logln "Running \"terraform init\"...", .tfInit none,
               logln "Running \"terraform plan\"...",
               .createTemp "" "tfautomv.*.plan" (.ok name),
               .tfPlan name (.ok b), .showPlanFile name (.error e), .remove name],
            (E.Remove name w6).2⟩) ∧
        (∀ w3 name w4 b w5 p w6, E.Init tf w2 = (none, w3) →
          E.CreateTemp "" "tfautomv.*.plan" w3 = (.ok name, w4) →
          E.Plan tf name w4 = (.ok b, w5) →
          E.ShowPlanFile tf name w5 = (.ok p, w6) →
          run E fl w = emit
            (eventsBeforePlan fl tf v ++
              [logln "Running \"terraform init\"...", .tfInit none,
               logln "Running \"terraform plan\"...",
               .createTemp "" "tfautomv.*.plan" (.ok name),
               .tfPlan name (.ok b), .showPlanFile name (.ok p)])
            (deferRemove E name (analyse E fl p rules w6)) ∧
          ∃ rest, (run E fl w).events =
            eventsBeforePlan fl tf v ++
              [logln "Running \"terraform init\"...", .tfInit none,
               logln "Running \"terraform plan\"...",
               .createTemp "" "tfautomv.*.plan" (.ok name),
               .tfPlan name (.ok b), .showPlanFile name (.ok p),
               logln "Analysing plan...", .analysisFromPlan p rules] ++ rest ++
              [.remove name]))) := by
  have hframe := plan_source_frame E fl w
  refine ⟨hframe.1, hframe.2, ?_⟩
  intro tf w1 v w2 rules hv htf hver hfmt hparse
  have hrun := run_to_obtainPlan E fl w tf w1 v w2 rules hv htf hver hfmt hparse
  refine ⟨fun hj => ⟨?_, ?_, ?_⟩, fun hj => ⟨?_, ?_, ?_, ?_, ?_⟩⟩
  · intro e w3 hR
    rw [hrun]
    simp [obtainPlan, hj, hR, emit, eventsBeforePlan]
  · intro data w3 e hR hU
    rw [hrun]
    simp [obtainPlan, hj, hR, hU, emit, eventsBeforePlan]
  · intro data w3 p hR hU
    have h1 : run E fl w = emit
        (eventsBeforePlan fl tf v ++ [.readFile fl.jsonPlanFile (.ok data), .unmarshal data])
        (analyse E fl p rules w3) := by
      rw [hrun]
      simp [obtainPlan, hj, hR, hU, emit, eventsBeforePlan]
    refine ⟨h1, ?_⟩
    obtain ⟨rest, hrest⟩ := analyse_events_head E fl p rules w3
    refine ⟨rest, ?_⟩
    rw [h1, emit_events, hrest]
    simp
  · intro e w3 hI
    rw [hrun]
    simp [obtainPlan, hj, hI, emit, eventsBeforePlan]
  · intro w3 e w4 hI hC
    rw [hrun]
    simp [obtainPlan, hj, hI, hC, emit, eventsBeforePlan]
  · intro w3 name w4 e w5 hI hC hP
    rw [hrun]
    simp [obtainPlan, hj, hI, hC, hP, emit, deferRemove, eventsBeforePlan]
  · intro w3 name w4 b w5 e w6 hI hC hP hS
    rw [hrun]
    simp [obtainPlan, hj, hI, hC, hP, hS, emit, deferRemove, eventsBeforePlan]
  · intro w3 name w4 b w5 p w6 hI hC hP hS
    have h1 : run E fl w = emit
        (eventsBeforePlan fl tf v ++
          [logln "Running \"terraform init\"...", .tfInit none,
           logln "Running \"terraform plan\"...",
           .createTemp "" "tfautomv.*.plan" (.ok name),
           .tfPlan name (.ok b), .showPlanFile name (.ok p)])
        (deferRemove E name (analyse E fl p rules w6)) := by
      rw [hrun]
      simp [obtainPlan, hj, hI, hC, hP, hS, emit, deferRemove, eventsBeforePlan]
    refine ⟨h1, ?_⟩
    obtain ⟨rest, hrest⟩ := analyse_events_head E fl p rules w6
    refine ⟨rest, ?_⟩
    rw [h1, emit_events, deferRemove_events, hrest]
    simp

theorem run_plan_source_witness :
    exampleEnv.ReadFile "missing.json" [] = (.error "no such file", []) ∧
    run exampleEnv flagsMissingFile [] =
      ⟨some (.ext "no such file"),
       [.newTerraform "." "terraform" (.ok "terraform"), .tfVersion (.ok (1, 3)),
        .readFile "missing.json" (.error "no such file")], []⟩ ∧
    exampleEnv.ShowPlanFile "terraform" "/tmp/tfautomv.1.plan" ["init", "create", "plan"] =
      (.ok [("a.old", "a.new")], ["init", "create", "plan"]) ∧
    (∃ rest, (run exampleEnv flagsCommands []).events =
      eventsBeforePlan flagsCommands "terraform" (1, 3) ++
        [logln "Running \"terraform init\"...", .tfInit none,
         logln "Running \"terraform plan\"...",
         .createTemp "" "tfautomv.*.plan" (.ok "/tmp/tfautomv.1.plan"),
         .tfPlan "/tmp/tfautomv.1.plan" (.ok true),
         .showPlanFile "/tmp/tfautomv.1.plan" (.ok [("a.old", "a.new")]),
         logln "Analysing plan...", .analysisFromPlan [("a.old", "a.new")] []] ++ rest ++
        [.remove "/tmp/tfautomv.1.plan"]) :=
  have hne : flagsMissingFile.jsonPlanFile ≠ "" := by decide
  ⟨rfl,
    (((run_plan_source exampleEnv flagsMissingFile []).2.2 "terraform" [] (1, 3) [] []
      rfl rfl rfl (Or.inr ⟨rfl, rfl⟩) List.Forall₂.nil).1 hne).1 "no such file" [] rfl,
    rfl,
    ((((run_plan_source exampleEnv flagsCommands []).2.2 "terraform" [] (1, 3) [] []
      rfl rfl rfl (Or.inl rfl) List.Forall₂.nil).2 rfl).2.2.2.2
      ["init"] "/tmp/tfautomv.1.plan" ["init", "create"] true ["init", "create", "plan"]
      [("a.old", "a.new")] ["init", "create", "plan"] rfl rfl rfl rfl).2⟩

end Tfautomv
